import Mathlib

/-!
Verification of `src/classes/ShaderStructArray.py`.

The module is shallowly embedded: a `World` holds all `ShaderStructElement`
instances (by index `ElemId`) and all `ShaderStructArray` instances (by index
`ArrId`).  Python object references become indices, Python exceptions become an
explicit `Option PyErr` result threaded next to the post-state (mutations made
before the raise persist, matching Python semantics), Python floats are modelled
as rationals, and the panda3d `PTAxxx` typed arrays become `Buffer` values (an
element type tag plus a list of cell contents).
-/

set_option maxHeartbeats 1000000

/-- Identifier of a `ShaderStructElement` instance (its index in `World.elems`). -/
abbrev ElemId := Nat

/-- Identifier of a `ShaderStructArray` instance (its index in `World.arrays`). -/
abbrev ArrId := Nat

/-- Python runtime values that can appear as exposed attributes of an element:
ints, floats (modelled as rationals), 2/3-vectors, 4x4 matrices, and `PTAInt`
int arrays. -/
inductive Value where
  | int (n : Int)
  | float (q : Rat)
  | vec2 (a b : Rat)
  | vec3 (a b c : Rat)
  | mat4 (m : List Rat)
  | arr (xs : List Int)
  deriving DecidableEq, Repr

/-- The panda3d typed-array classes used by the constructor
(`PTAInt`, `PTAFloat`, `PTAMat4`, `PTALVecBase2f`, `PTALVecBase3f`). -/
inductive PTAType where
  | ptaInt
  | ptaFloat
  | ptaMat4
  | ptaVec2
  | ptaVec3
  deriving DecidableEq, Repr

/-- One `PTAxxx` typed array: its class and its cells. -/
structure Buffer where
  btype : PTAType
  data : List Value
  deriving DecidableEq, Repr

/-- Errors the embedded code can raise, mirroring the Python exceptions:
`outOfBounds` is the `Exception("Out of bounds!")` of `__setitem__`,
`attributeMissing` the `AttributeError` of `getattr` on a missing field,
`noneAttr` the `AttributeError` of `None.addListReference`,
`typeError` a failed `int()`/`float()` cast or bad subscript,
`indexError` an out-of-range subscript, `keyError` a missing dict key,
and `invalidOp` a reference to a nonexistent object (a model-level guard). -/
inductive PyErr where
  | outOfBounds
  | attributeMissing
  | noneAttr
  | typeError
  | indexError
  | keyError
  | invalidOp
  deriving DecidableEq, Repr

/-- State of one `ShaderStructElement`: its `referencedLists` (the struct
arrays currently registered on it, held as ids) and its instance attributes. -/
structure ElemState where
  referencedLists : List ArrId
  fields : List (String × Value)
  deriving DecidableEq, Repr

/-- State of one `ShaderStructArray`: the schema read once from the class
(`attributes`), the fixed `size`, the `parents` binding table, the
`assignedObjects` slot table and the `ptaWrappers` buffer table
(per attribute name, one buffer per slot). -/
structure ArrState where
  attributes : List (String × String)
  size : Nat
  parents : List (Nat × String)
  assignedObjects : List (Option ElemId)
  ptaWrappers : List (String × List Buffer)
  deriving DecidableEq, Repr

/-- The whole mutable heap: every element and every array. -/
structure World where
  elems : List ElemState
  arrays : List ArrState
  deriving DecidableEq, Repr

/-- Association-list lookup (Python dict read / `getattr`): first matching key. -/
def alookup {κ α : Type} [DecidableEq κ] (k : κ) : List (κ × α) → Option α
  | [] => none
  | (k', v) :: rest => if k' = k then some v else alookup k rest

/-- Association-list write (Python dict write / `setattr`): replace the first
matching key in place, else append. -/
def aset {κ α : Type} [DecidableEq κ] (k : κ) (v : α) : List (κ × α) → List (κ × α)
  | [] => [(k, v)]
  | (k', v') :: rest => if k' = k then (k, v) :: rest else (k', v') :: aset k v rest

/-- Python `float(x)`: identity on floats, widening on ints, `TypeError`
(modelled as `none`) on everything else. -/
def pyFloat : Value → Option Value
  | .int n => some (.float (n : Rat))
  | .float q => some (.float q)
  | _ => none

/-- Python `int(x)`: identity on ints, truncation toward zero on floats,
`TypeError` (modelled as `none`) on everything else. -/
def pyInt : Value → Option Value
  | .int n => some (.int n)
  | .float q => some (.int (q.num.tdiv (q.den : Int)))
  | _ => none

/-- Python `objValue[i]` as used at line 200 of the source: subscripting a
`PTAInt` yields its int cell; subscripting anything else is a `TypeError`,
an out-of-range index an `IndexError`. -/
def getIndexVal : Value → Nat → Except PyErr Value
  | .arr xs, k =>
      match xs.get? k with
      | some n => .ok (.int n)
      | none => .error .indexError
  | _, _ => .error .typeError

/-- The zero cell a fresh `PTAxxx.emptyArray` holds. -/
def defaultVal : PTAType → Value
  | .ptaInt => .int 0
  | .ptaFloat => .float 0
  | .ptaMat4 => .mat4 (List.replicate 16 0)
  | .ptaVec2 => .vec2 0 0
  | .ptaVec3 => .vec3 0 0 0

/-- The constructor's dispatch on the attribute type tag (source lines 94-116):
pre-set default `PTAFloat` with one cell, then the `if`/`elif` chain.  Note the
chain has no failing branch: an unrecognized tag keeps the default. -/
def mkBufferFor (attrType : String) : PTAType × Nat :=
  if attrType = "mat4" then (.ptaMat4, 1)
  else if attrType = "int" then (.ptaInt, 1)
  else if attrType = "array<int>(6)" then (.ptaInt, 6)
  else if attrType = "float" then (.ptaFloat, 1)
  else if attrType = "vec2" then (.ptaVec2, 1)
  else if attrType = "vec3" then (.ptaVec3, 1)
  else (.ptaFloat, 1)

/-- `arrayType.emptyArray(numElements)`. -/
def emptyArray (t : PTAType) (k : Nat) : Buffer :=
  ⟨t, List.replicate k (defaultVal t)⟩

/-- `ShaderStructArray.__init__` (source lines 78-119): record the schema and
size, empty parent table, all slots `None`, and for every attribute one fresh
buffer per slot, typed and sized by `mkBufferFor`. -/
def mkStructArray (attrs : List (String × String)) (size : Nat) : ArrState :=
  { attributes := attrs
    size := size
    parents := []
    assignedObjects := List.replicate size none
    ptaWrappers := attrs.map fun p =>
      (p.1, List.replicate size (emptyArray (mkBufferFor p.2).1 (mkBufferFor p.2).2)) }

/-- Overwrite element `eid` in the heap. -/
def setElemState (w : World) (eid : ElemId) (e : ElemState) : World :=
  { w with elems := w.elems.set eid e }

/-- Overwrite array `aid` in the heap. -/
def setArrState (w : World) (aid : ArrId) (a : ArrState) : World :=
  { w with arrays := w.arrays.set aid a }

/-- `ShaderStructElement.removeListReference` (source lines 53-58). -/
def removeListRefW (w : World) (eid : ElemId) (aid : ArrId) : World :=
  match w.elems.get? eid with
  | none => w
  | some e =>
      if aid ∈ e.referencedLists then
        setElemState w eid { e with referencedLists := e.referencedLists.erase aid }
      else w

/-- `ShaderStructElement.addListReference` (source lines 46-51). -/
def addListRefW (w : World) (eid : ElemId) (aid : ArrId) : World :=
  match w.elems.get? eid with
  | none => w
  | some e =>
      if aid ∈ e.referencedLists then w
      else setElemState w eid { e with referencedLists := e.referencedLists ++ [aid] }

/-- `self.assignedObjects[index] = value` on array `aid`. -/
def setAssignedW (w : World) (aid : ArrId) (i : Nat) (v : Option ElemId) : World :=
  match w.arrays.get? aid with
  | none => w
  | some a => setArrState w aid { a with assignedObjects := a.assignedObjects.set i v }

/-- `self.ptaWrappers[attrName][index][pos] = v` on array `aid`. -/
def writeBufPos (w : World) (aid : ArrId) (i : Nat) (attrName : String) (pos : Nat)
    (v : Value) : World × Option PyErr :=
  match w.arrays.get? aid with
  | none => (w, some .invalidOp)
  | some a =>
      match alookup attrName a.ptaWrappers with
      | none => (w, some .keyError)
      | some bufs =>
          match bufs.get? i with
          | none => (w, some .indexError)
          | some buf =>
              if pos < buf.data.length then
                let newBufs := bufs.set i ⟨buf.btype, buf.data.set pos v⟩
                (setArrState w aid { a with ptaWrappers := aset attrName newBufs a.ptaWrappers },
                  none)
              else (w, some .indexError)

/-- The inner loop of the `array<int>(6)` branch (source lines 199-200):
for each position `k` of the list, `ptaWrappers[attrName][index][k] = objValue[k]`. -/
def writeIdxList (w : World) (aid : ArrId) (i : Nat) (attrName : String) (v : Value) :
    List Nat → World × Option PyErr
  | [] => (w, none)
  | k :: rest =>
      match getIndexVal v k with
      | .error err => (w, some err)
      | .ok x =>
          match writeBufPos w aid i attrName k x with
          | (w', none) => writeIdxList w' aid i attrName v rest
          | r => r

/-- One iteration of the attribute loop of `__setitem__` (source lines 189-204):
read the field, cast per the type tag, then write the slot's buffer(s). -/
def writeOne (w : World) (aid : ArrId) (i : Nat) (eid : ElemId)
    (attrName attrType : String) : World × Option PyErr :=
  match w.elems.get? eid with
  | none => (w, some .invalidOp)
  | some e =>
      match alookup attrName e.fields with
      | none => (w, some .attributeMissing)
      | some objValue0 =>
          let cast : Option Value :=
            if attrType = "float" then pyFloat objValue0
            else if attrType = "int" then pyInt objValue0
            else some objValue0
          match cast with
          | none => (w, some .typeError)
          | some objValue =>
              if attrType = "array<int>(6)" then
                writeIdxList w aid i attrName objValue (List.range 6)
              else if attrType = "mat4" then
                writeBufPos w aid i attrName 0 objValue
              else
                writeBufPos w aid i attrName 0 objValue

/-- The attribute loop of `__setitem__`, iterating the schema in order and
propagating the first raised exception (later attributes are not written). -/
def writeAttrs (w : World) (aid : ArrId) (i : Nat) (eid : ElemId) :
    List (String × String) → World × Option PyErr
  | [] => (w, none)
  | (attrName, attrType) :: rest =>
      match writeOne w aid i eid attrName attrType with
      | (w', none) => writeAttrs w' aid i eid rest
      | r => r

/-- `ShaderStructArray.__setitem__` (source lines 170-204): bounds check,
back-reference bookkeeping (remove the old element's reference when a different
non-`None` value arrives, then `value.addListReference` — which raises an
`AttributeError` when `value` is `None` — then store the slot), and finally the
per-attribute snapshot loop. -/
def arrSetItem (w : World) (aid : ArrId) (index : Int) (value : Option ElemId) :
    World × Option PyErr :=
  match w.arrays.get? aid with
  | none => (w, some .invalidOp)
  | some a =>
      if index < 0 ∨ (a.size : Int) ≤ index then (w, some .outOfBounds)
      else
        let i : Nat := index.toNat
        match a.assignedObjects.get? i with
        | none => (w, some .indexError)
        | some oldObject =>
            let w₁ :=
              match value, oldObject with
              | some v, some old => if old ≠ v then removeListRefW w old aid else w
              | _, _ => w
            match value with
            | none => (w₁, some .noneAttr)
            | some vid =>
                let w₂ := addListRefW w₁ vid aid
                let w₃ := setAssignedW w₂ aid i (some vid)
                writeAttrs w₃ aid i vid a.attributes

/-- `ShaderStructArray.objectChanged` (source lines 164-168): if the element is
assigned somewhere, re-run `__setitem__` at the FIRST index holding it. -/
def objectChangedW (w : World) (aid : ArrId) (eid : ElemId) : World × Option PyErr :=
  match w.arrays.get? aid with
  | none => (w, some .invalidOp)
  | some a =>
      if (some eid) ∈ a.assignedObjects then
        arrSetItem w aid (a.assignedObjects.indexOf (some eid) : Int) (some eid)
      else (w, none)

/-- The fan-out loop of `onPropertyChanged`, stopping at the first exception. -/
def notifyFold (w : World) (eid : ElemId) : List ArrId → World × Option PyErr
  | [] => (w, none)
  | aid :: rest =>
      match objectChangedW w aid eid with
      | (w', none) => notifyFold w' eid rest
      | r => r

/-- `ShaderStructElement.onPropertyChanged` (source lines 39-44). -/
def onPropertyChangedW (w : World) (eid : ElemId) : World × Option PyErr :=
  match w.elems.get? eid with
  | none => (w, some .invalidOp)
  | some e => notifyFold w eid e.referencedLists

/-- The uniform name built at source lines 158-159:
`uniformName + "[" + str(index) + "" "]" + "." + attrName` (the `"" "]"` is a
Python literal juxtaposition equal to `"]"`); `str` of a nonnegative int is
`Nat.repr`. -/
def mkInputName (uniformName : String) (index : Nat) (attrName : String) : String :=
  uniformName ++ "[" ++ Nat.repr index ++ "" ++ "]" ++ "." ++ attrName

/-- The inner loop of `bindTo` for one slot index: one `setShaderInput` call per
attribute, registering the name and the slot's buffer object. -/
def bindRegsAttrs (a : ArrState) (uniformName : String) (index : Nat) :
    List (String × String) → Option (List (String × Buffer))
  | [] => some []
  | (attrName, _attrType) :: rest =>
      match alookup attrName a.ptaWrappers with
      | none => none
      | some bufs =>
          match bufs.get? index with
          | none => none
          | some buf =>
              (bindRegsAttrs a uniformName index rest).map
                ((mkInputName uniformName index attrName, buf) :: ·)

/-- The outer loop of `bindTo` over all slot indices. -/
def bindRegs (a : ArrState) (uniformName : String) :
    List Nat → Option (List (String × Buffer))
  | [] => some []
  | index :: rest =>
      match bindRegsAttrs a uniformName index a.attributes with
      | none => none
      | some here => (bindRegs a uniformName rest).map (here ++ ·)

/-- The full sequence of `setShaderInput(name, value)` registrations issued by
`ShaderStructArray.bindTo` (source lines 156-162), in call order; `none` models
a raised `KeyError`/`IndexError` on a malformed array. -/
def bindRegistrations (a : ArrState) (uniformName : String) :
    Option (List (String × Buffer)) :=
  bindRegs a uniformName (List.range a.size)

/-- `ShaderStructArray.bindTo` (source lines 121-162) as a heap operation:
record `self.parents[parent] = uniformName`, then issue the registrations
(the destination is an opaque sink, so only the error outcome is kept). -/
def bindToW (w : World) (aid : ArrId) (parent : Nat) (uniformName : String) :
    World × Option PyErr :=
  match w.arrays.get? aid with
  | none => (w, some .invalidOp)
  | some a =>
      let a' := { a with parents := aset parent uniformName a.parents }
      match bindRegistrations a' uniformName with
      | none => (setArrState w aid a', some .keyError)
      | some _ => (setArrState w aid a', none)

/-- The operations host code can perform against the module. -/
inductive Op where
  | newElem (fields : List (String × Value))
  | setField (eid : ElemId) (name : String) (v : Value)
  | newArray (attrs : List (String × String)) (size : Nat)
  | setSlot (aid : ArrId) (index : Int) (value : Option ElemId)
  | notify (eid : ElemId)
  | bind (aid : ArrId) (parent : Nat) (uniformName : String)

/-- One host-level step.  `newElem` is `ShaderStructElement.__init__` (fresh
empty `referencedLists`) plus the instance's own attributes; `setField` is a
plain Python attribute write on the element; the rest call the embedded
methods. -/
def step (w : World) : Op → World × Option PyErr
  | .newElem fields => ({ w with elems := w.elems ++ [⟨[], fields⟩] }, none)
  | .setField eid name v =>
      match w.elems.get? eid with
      | none => (w, some .invalidOp)
      | some e => (setElemState w eid { e with fields := aset name v e.fields }, none)
  | .newArray attrs size => ({ w with arrays := w.arrays ++ [mkStructArray attrs size] }, none)
  | .setSlot aid index value => arrSetItem w aid index value
  | .notify eid => onPropertyChangedW w eid
  | .bind aid parent uniformName => bindToW w aid parent uniformName

/-- Run a trace of host operations from the empty heap; exceptions are treated
as caught by the host, so execution continues on the post-raise state. -/
def runTrace (ops : List Op) : World :=
  ops.foldl (fun w op => (step w op).1) ⟨[], []⟩

/-! ### Association-list helpers -/

theorem alookup_aset_self {κ α : Type} [DecidableEq κ] (k : κ) (v : α) (l : List (κ × α)) :
    alookup k (aset k v l) = some v := by
  induction l with
  | nil => simp [aset, alookup]
  | cons p rest ih =>
    by_cases h : p.1 = k
    · simp [aset, h, alookup]
    · simp [aset, h, alookup, ih]

theorem alookup_aset_ne {κ α : Type} [DecidableEq κ] {k k' : κ} (v : α) (l : List (κ × α))
    (h : k' ≠ k) : alookup k' (aset k v l) = alookup k' l := by
  have hk : ¬ k = k' := fun h' => h h'.symm
  induction l with
  | nil => simp [aset, alookup, hk]
  | cons p rest ih =>
    by_cases hp : p.1 = k
    · subst hp
      simp [aset, alookup, hk]
    · simp [aset, hp, alookup, ih]

theorem aset_eq_self {κ α : Type} [DecidableEq κ] {k : κ} {v : α} {l : List (κ × α)}
    (h : alookup k l = some v) : aset k v l = l := by
  induction l with
  | nil => simp [alookup] at h
  | cons p rest ih =>
    by_cases hp : p.1 = k
    · cases p with
      | mk pk pv =>
        simp at hp
        subst hp
        simp [alookup] at h
        simp [aset, h]
    · simp [alookup, hp] at h
      simp [aset, hp, ih h]

theorem alookup_isSome_of_key_mem {κ α : Type} [DecidableEq κ] {k : κ} {l : List (κ × α)}
    (h : k ∈ l.map Prod.fst) : (alookup k l).isSome := by
  induction l with
  | nil => simp at h
  | cons p rest ih =>
    by_cases hp : p.1 = k
    · simp [alookup, hp]
    · have h' : k ∈ rest.map Prod.fst := by
        rcases List.mem_map.1 h with ⟨q, hq, hqk⟩
        rcases List.mem_cons.1 hq with rfl | hq2
        · exact absurd hqk hp
        · exact List.mem_map.2 ⟨q, hq2, hqk⟩
      simpa [alookup, hp] using ih h'

theorem alookup_aset_map {κ α β : Type} [DecidableEq κ] {k : κ} {v v' : α} {l : List (κ × α)}
    (f : α → β) (h : alookup k l = some v) (hf : f v' = f v) :
    (aset k v' l).map (fun p => (p.1, f p.2)) = l.map (fun p => (p.1, f p.2)) := by
  induction l with
  | nil => simp [alookup] at h
  | cons p rest ih =>
    by_cases hp : p.1 = k
    · simp [alookup, hp] at h
      subst hp
      simp [aset, hf, h]
    · simp [alookup, hp] at h
      simp [aset, hp, ih h]

/-! ### `List.set` / `List.get?` helpers -/

theorem get?_set_self {α : Type} {l : List α} {i : Nat} (a : α) (h : i < l.length) :
    (l.set i a).get? i = some a := by
  induction l generalizing i with
  | nil => simp at h
  | cons x xs ih =>
    cases i with
    | zero => simp [List.set]
    | succ j => simpa [List.set] using ih (by simpa using h)

theorem set_get?_eq_self {α : Type} {l : List α} {i : Nat} {a : α}
    (h : l.get? i = some a) : l.set i a = l := by
  induction l generalizing i with
  | nil => simp [List.get?] at h
  | cons x xs ih =>
    cases i with
    | zero =>
      have hx : x = a := by simpa [List.get?] using h
      simp [List.set, hx]
    | succ j =>
      have h' : xs.get? j = some a := h
      simp [List.set, ih h']

theorem mem_of_get?_set {α : Type} {l : List α} {i : Nat} (a : α) (h : i < l.length) :
    a ∈ l.set i a :=
  List.get?_mem (get?_set_self a (by simpa using h))

/-! ### Observation functions and specification-side definitions -/

/-- Shape of a buffer: its element class and its cell count.  "Buffer identity"
in the functional model is the pair (key in `ptaWrappers`, slot index); the
shape is what must stay fixed for engine bindings to stay valid. -/
def bufShape (b : Buffer) : PTAType × Nat := (b.btype, b.data.length)

/-- The shapes of all buffers of an array, keyed like `ptaWrappers`. -/
def wrapShapes (a : ArrState) : List (String × List (PTAType × Nat)) :=
  a.ptaWrappers.map fun p => (p.1, p.2.map bufShape)

/-- Everything in an array's state except the buffer contents. -/
def skelOf (a : ArrState) :
    List (String × String) × Nat × List (Option ElemId) × List (Nat × String) :=
  (a.attributes, a.size, a.assignedObjects, a.parents)

/-- Contents of the backing buffer of attribute `attrName` at slot `i`. -/
def bufDataAt (w : World) (aid : ArrId) (attrName : String) (i : Nat) :
    Option (List Value) :=
  (w.arrays.get? aid).bind fun a =>
    (alookup attrName a.ptaWrappers).bind fun bufs =>
      (bufs.get? i).map Buffer.data

/-- Specification-side snapshot of one attribute, following the spec's words:
the value is cast by `int()` when the schema says `int`, by `float()` when it
says `float`; for `array<int>(6)` all 6 positions are copied elementwise from
the source's value; every other type overwrites position 0 of its length-1
buffer with the unconverted value. -/
def specSnapshotData (attrType : String) (v : Value) : Option (List Value) :=
  if attrType = "int" then (pyInt v).map fun x => [x]
  else if attrType = "float" then (pyFloat v).map fun x => [x]
  else if attrType = "array<int>(6)" then
    match v with
    | .arr xs => if 6 ≤ xs.length then some ((xs.take 6).map Value.int) else none
    | _ => none
  else some [v]

/-- A field value fits its declared type tag well enough for the snapshot to
succeed: casts succeed for `int`/`float`, the source has at least 6 cells for
`array<int>(6)`, anything goes otherwise. -/
def fieldWritable (attrType : String) (v : Value) : Bool :=
  if attrType = "int" then (pyInt v).isSome
  else if attrType = "float" then (pyFloat v).isSome
  else if attrType = "array<int>(6)" then
    match v with
    | .arr xs => decide (6 ≤ xs.length)
    | _ => false
  else true

/-- The element's fields satisfy the declared schema: every declared attribute
is present and its value fits the declared type tag. -/
def elemSatisfies (attrs : List (String × String)) (flds : List (String × Value)) : Bool :=
  attrs.all fun p =>
    match alookup p.1 flds with
    | some v => fieldWritable p.2 v
    | none => false

/-- Well-formedness of an array's state, as established by the constructor:
the slot table has `size` entries, and every declared attribute has a wrapper
list of `size` buffers, each shaped by its type tag. -/
def wfArr (a : ArrState) : Bool :=
  (a.assignedObjects.length == a.size) &&
  (a.attributes.all fun p =>
    match alookup p.1 a.ptaWrappers with
    | some bufs =>
        (bufs.length == a.size) && (bufs.all fun b => decide (bufShape b = mkBufferFor p.2))
    | none => false)

/-- The back-reference invariant claimed by the spec, in the direction the code
actually maintains, together with the bookkeeping fact (no duplicates in any
`referencedLists`) needed to preserve it. -/
def RefsInv (w : World) : Prop :=
  (∀ e ∈ w.elems, e.referencedLists.Nodup) ∧
  ∀ eid e aid, w.elems.get? eid = some e → aid ∈ e.referencedLists →
    ∃ a, w.arrays.get? aid = some a ∧ ∃ j, a.assignedObjects.get? j = some (some eid)

/-- Frame relation of the attribute-writing code: the elements, every other
array, and everything about array `aid` except its buffer contents are
untouched. -/
def BufFrame (aid : ArrId) (w w' : World) : Prop :=
  w'.elems = w.elems ∧
  (∀ k, k ≠ aid → w'.arrays.get? k = w.arrays.get? k) ∧
  (w'.arrays.get? aid).map skelOf = (w.arrays.get? aid).map skelOf ∧
  (w'.arrays.get? aid).map wrapShapes = (w.arrays.get? aid).map wrapShapes

theorem bufFrame_rfl (aid : ArrId) (w : World) : BufFrame aid w w :=
  ⟨rfl, fun _ _ => rfl, rfl, rfl⟩

theorem bufFrame_trans {aid : ArrId} {w₁ w₂ w₃ : World}
    (h : BufFrame aid w₁ w₂) (h' : BufFrame aid w₂ w₃) : BufFrame aid w₁ w₃ :=
  ⟨h'.1.trans h.1, fun k hk => (h'.2.1 k hk).trans (h.2.1 k hk),
   h'.2.2.1.trans h.2.2.1, h'.2.2.2.trans h.2.2.2⟩

/-! ### Lemmas about `writeBufPos` -/

theorem writeBufPos_ok {w : World} {aid : ArrId} {i : Nat} {n : String} {pos : Nat} {v : Value}
    {a : ArrState} {bufs : List Buffer} {b : Buffer}
    (ha : w.arrays.get? aid = some a)
    (hwr : alookup n a.ptaWrappers = some bufs)
    (hbi : bufs.get? i = some b)
    (hpos : pos < b.data.length) :
    writeBufPos w aid i n pos v =
      (setArrState w aid
        { a with ptaWrappers := aset n (bufs.set i ⟨b.btype, b.data.set pos v⟩) a.ptaWrappers },
        none) := by
  simp only [writeBufPos, ha, hwr, hbi]
  rw [if_pos hpos]

theorem writeBufPos_err_cases (w : World) (aid : ArrId) (i : Nat) (n : String) (pos : Nat)
    (v : Value) :
    (writeBufPos w aid i n pos v).1 = w ∨
    ∃ a bufs b, w.arrays.get? aid = some a ∧ alookup n a.ptaWrappers = some bufs ∧
      bufs.get? i = some b ∧ pos < b.data.length := by
  rcases Option.eq_none_or_eq_some (w.arrays.get? aid) with ha | ⟨a, ha⟩
  · left; simp only [writeBufPos, ha]
  rcases Option.eq_none_or_eq_some (alookup n a.ptaWrappers) with hwr | ⟨bufs, hwr⟩
  · left; simp only [writeBufPos, ha, hwr]
  rcases Option.eq_none_or_eq_some (bufs.get? i) with hbi | ⟨b, hbi⟩
  · left; simp only [writeBufPos, ha, hwr, hbi]
  by_cases hpos : pos < b.data.length
  · exact .inr ⟨a, bufs, b, ha, hwr, hbi, hpos⟩
  · left
    simp only [writeBufPos, ha, hwr, hbi]
    rw [if_neg hpos]

theorem writeBufPos_frame (w : World) (aid : ArrId) (i : Nat) (n : String) (pos : Nat)
    (v : Value) : BufFrame aid w (writeBufPos w aid i n pos v).1 := by
  rcases writeBufPos_err_cases w aid i n pos v with h | ⟨a, bufs, b, ha, hwr, hbi, hpos⟩
  · rw [h]; exact bufFrame_rfl aid w
  · rw [writeBufPos_ok ha hwr hbi hpos]
    have hlt : aid < w.arrays.length := (List.get?_eq_some.1 ha).1
    refine ⟨rfl, ?_, ?_, ?_⟩
    · intro k hk
      exact List.get?_set_ne _ _ (fun h => hk h.symm)
    · show ((w.arrays.set aid _).get? aid).map skelOf = _
      rw [get?_set_self _ hlt, ha]
      rfl
    · show ((w.arrays.set aid _).get? aid).map wrapShapes = _
      rw [get?_set_self _ hlt, ha]
      simp only [Option.map_some']
      congr 1
      unfold wrapShapes
      refine alookup_aset_map _ hwr ?_
      have hms : (bufs.set i ⟨b.btype, b.data.set pos v⟩).map bufShape
          = (bufs.map bufShape).set i (bufShape ⟨b.btype, b.data.set pos v⟩) := by
        simp [List.map_set]
      rw [hms]
      have hsh : bufShape ⟨b.btype, b.data.set pos v⟩ = bufShape b := by
        simp [bufShape]
      rw [hsh]
      exact set_get?_eq_self (by rw [List.get?_map, hbi]; rfl)

theorem bufDataAt_writeBufPos_self {w : World} {aid : ArrId} {i : Nat} {n : String}
    {pos : Nat} {v : Value} {a : ArrState} {bufs : List Buffer} {b : Buffer}
    (ha : w.arrays.get? aid = some a)
    (hwr : alookup n a.ptaWrappers = some bufs)
    (hbi : bufs.get? i = some b)
    (hpos : pos < b.data.length) :
    bufDataAt (writeBufPos w aid i n pos v).1 aid n i = some (b.data.set pos v) := by
  rw [writeBufPos_ok ha hwr hbi hpos]
  have hlt : aid < w.arrays.length := (List.get?_eq_some.1 ha).1
  have hilt : i < bufs.length := (List.get?_eq_some.1 hbi).1
  show bufDataAt (setArrState w aid _) aid n i = _
  unfold bufDataAt setArrState
  rw [get?_set_self _ hlt]
  simp only [Option.some_bind, alookup_aset_self]
  rw [get?_set_self _ hilt]
  rfl

theorem bufDataAt_writeBufPos_other {w : World} {aid : ArrId} {i : Nat} {n : String}
    {pos : Nat} {v : Value} {a : ArrState} {bufs : List Buffer} {b : Buffer}
    (ha : w.arrays.get? aid = some a)
    (hwr : alookup n a.ptaWrappers = some bufs)
    (hbi : bufs.get? i = some b)
    (hpos : pos < b.data.length)
    (m : String) (j : Nat) (hmj : m ≠ n ∨ j ≠ i) :
    bufDataAt (writeBufPos w aid i n pos v).1 aid m j = bufDataAt w aid m j := by
  rw [writeBufPos_ok ha hwr hbi hpos]
  have hlt : aid < w.arrays.length := (List.get?_eq_some.1 ha).1
  show bufDataAt (setArrState w aid _) aid m j = _
  unfold bufDataAt setArrState
  rw [get?_set_self _ hlt, ha]
  simp only [Option.some_bind]
  rcases hmj with hm | hj
  · rw [alookup_aset_ne _ _ hm]
  · by_cases hm : m = n
    · subst hm
      rw [alookup_aset_self, hwr]
      simp only [Option.some_bind]
      rw [List.get?_set_ne _ _ (fun h => hj h.symm)]
    · rw [alookup_aset_ne _ _ hm]

/-! ### Lemmas about `writeIdxList` -/

theorem bufDataAt_extract {w : World} {aid : ArrId} {n : String} {i : Nat} {d : List Value}
    (hd : bufDataAt w aid n i = some d) :
    ∃ a bufs b, w.arrays.get? aid = some a ∧ alookup n a.ptaWrappers = some bufs ∧
      bufs.get? i = some b ∧ b.data = d := by
  unfold bufDataAt at hd
  rcases Option.eq_none_or_eq_some (w.arrays.get? aid) with ha | ⟨a, ha⟩
  · rw [ha] at hd; simp at hd
  rw [ha] at hd
  simp only [Option.some_bind] at hd
  rcases Option.eq_none_or_eq_some (alookup n a.ptaWrappers) with hwr | ⟨bufs, hwr⟩
  · rw [hwr] at hd; simp at hd
  rw [hwr] at hd
  simp only [Option.some_bind] at hd
  rcases Option.eq_none_or_eq_some (bufs.get? i) with hbi | ⟨b, hbi⟩
  · rw [hbi] at hd; simp at hd
  rw [hbi] at hd
  simp only [Option.map_some'] at hd
  exact ⟨a, bufs, b, ha, hwr, hbi, by injection hd⟩

theorem writeBufPos_chr {w : World} {aid : ArrId} {i : Nat} {n : String} {pos : Nat}
    {v : Value} {d : List Value}
    (hd : bufDataAt w aid n i = some d) (hpos : pos < d.length) :
    (writeBufPos w aid i n pos v).2 = none ∧
    bufDataAt (writeBufPos w aid i n pos v).1 aid n i = some (d.set pos v) ∧
    ∀ m j, (m ≠ n ∨ j ≠ i) →
      bufDataAt (writeBufPos w aid i n pos v).1 aid m j = bufDataAt w aid m j := by
  obtain ⟨a, bufs, b, ha, hwr, hbi, hbd⟩ := bufDataAt_extract hd
  subst hbd
  refine ⟨?_, bufDataAt_writeBufPos_self ha hwr hbi hpos, ?_⟩
  · rw [writeBufPos_ok ha hwr hbi hpos]
  · intro m j hmj
    exact bufDataAt_writeBufPos_other ha hwr hbi hpos m j hmj

theorem writeBufPos_fix {w : World} {aid : ArrId} {i : Nat} {n : String} {pos : Nat}
    {v : Value} {d : List Value}
    (hd : bufDataAt w aid n i = some d) (hpos : pos < d.length)
    (hv : d.get? pos = some v) : writeBufPos w aid i n pos v = (w, none) := by
  obtain ⟨a, bufs, b, ha, hwr, hbi, hbd⟩ := bufDataAt_extract hd
  subst hbd
  rw [writeBufPos_ok ha hwr hbi hpos]
  have h1 : b.data.set pos v = b.data := set_get?_eq_self hv
  have h2 : (⟨b.btype, b.data.set pos v⟩ : Buffer) = b := by rw [h1]
  rw [h2, set_get?_eq_self hbi, aset_eq_self hwr]
  have h3 : ({ a with ptaWrappers := a.ptaWrappers } : ArrState) = a := rfl
  rw [h3]
  unfold setArrState
  rw [set_get?_eq_self ha]

theorem writeIdxList_cons_err {w : World} {aid : ArrId} {i : Nat} {n : String} {v : Value}
    {k : Nat} {rest : List Nat} {e : PyErr} (h : getIndexVal v k = .error e) :
    writeIdxList w aid i n v (k :: rest) = (w, some e) := by
  simp only [writeIdxList, h]

theorem writeIdxList_cons_ok {w w' : World} {aid : ArrId} {i : Nat} {n : String} {v x : Value}
    {k : Nat} {rest : List Nat} (hg : getIndexVal v k = .ok x)
    (hw : writeBufPos w aid i n k x = (w', none)) :
    writeIdxList w aid i n v (k :: rest) = writeIdxList w' aid i n v rest := by
  simp only [writeIdxList, hg, hw]

theorem writeIdxList_frame (w : World) (aid : ArrId) (i : Nat) (n : String) (v : Value)
    (ks : List Nat) : BufFrame aid w (writeIdxList w aid i n v ks).1 := by
  induction ks generalizing w with
  | nil => exact bufFrame_rfl aid w
  | cons k rest ih =>
    cases hg : getIndexVal v k with
    | error e => rw [writeIdxList_cons_err hg]; exact bufFrame_rfl aid w
    | ok x =>
      have hfr := writeBufPos_frame w aid i n k x
      cases hw : writeBufPos w aid i n k x with
      | mk w' err =>
        rw [hw] at hfr
        cases err with
        | none =>
          rw [writeIdxList_cons_ok hg hw]
          exact bufFrame_trans hfr (ih w')
        | some e =>
          have : writeIdxList w aid i n v (k :: rest) = (w', some e) := by
            simp only [writeIdxList, hg, hw]
          rw [this]
          exact hfr

theorem writeIdxList_ok {xs : List Int} (ks : List Nat) {w : World} {aid : ArrId} {i : Nat}
    {n : String} {d : List Value}
    (hd : bufDataAt w aid n i = some d)
    (hks : ∀ k ∈ ks, k < xs.length ∧ k < d.length) :
    (writeIdxList w aid i n (.arr xs) ks).2 = none ∧
    (∃ d', bufDataAt (writeIdxList w aid i n (.arr xs) ks).1 aid n i = some d' ∧
      d'.length = d.length ∧
      ∀ k, d'.get? k = if k ∈ ks then some (.int (xs.getD k 0)) else d.get? k) ∧
    ∀ m j, (m ≠ n ∨ j ≠ i) →
      bufDataAt (writeIdxList w aid i n (.arr xs) ks).1 aid m j = bufDataAt w aid m j := by
  induction ks generalizing w d with
  | nil =>
    refine ⟨rfl, ⟨d, hd, rfl, ?_⟩, fun m j _ => rfl⟩
    intro k
    simp
  | cons k rest ih =>
    obtain ⟨hkxs, hkd⟩ := hks k (List.mem_cons_self k rest)
    obtain ⟨x, hx⟩ : ∃ x, xs.get? k = some x := ⟨_, List.get?_eq_some.2 ⟨hkxs, rfl⟩⟩
    have hgetd : xs.getD k 0 = x := by rw [List.getD_eq_get?, hx]; rfl
    have hg : getIndexVal (.arr xs) k = .ok (.int x) := by
      simp only [getIndexVal, hx]
    obtain ⟨hsnd, hself, hother⟩ := writeBufPos_chr (v := .int x) hd hkd
    cases hw : writeBufPos w aid i n k (.int x) with
    | mk w₁ err =>
      cases err with
      | some e => rw [hw] at hsnd; simp at hsnd
      | none =>
        rw [hw] at hself hother
        rw [writeIdxList_cons_ok hg hw]
        have hd₁ : bufDataAt w₁ aid n i = some (d.set k (.int x)) := hself
        have hks₁ : ∀ k' ∈ rest, k' < xs.length ∧ k' < (d.set k (.int x)).length := by
          intro k' hk'
          obtain ⟨h1, h2⟩ := hks k' (List.mem_cons_of_mem _ hk')
          exact ⟨h1, by simpa using h2⟩
        obtain ⟨ihsnd, ⟨d', ihd', ihlen, ihget⟩, ihother⟩ := ih hd₁ hks₁
        refine ⟨ihsnd, ⟨d', ihd', by simpa using ihlen, ?_⟩, ?_⟩
        · intro k0
          rw [ihget k0]
          by_cases hk0r : k0 ∈ rest
          · simp [hk0r]
          · by_cases hk0k : k0 = k
            · subst hk0k
              rw [if_neg hk0r, if_pos (List.mem_cons_self k0 rest)]
              rw [get?_set_self _ hkd, hgetd]
            · rw [if_neg hk0r, if_neg (by simp [hk0k, hk0r])]
              exact List.get?_set_ne _ _ (fun h => hk0k h.symm)
        · intro m j hmj
          rw [ihother m j hmj, hother m j hmj]

theorem writeIdxList_fix {xs : List Int} (ks : List Nat) {w : World} {aid : ArrId} {i : Nat}
    {n : String} {d : List Value}
    (hd : bufDataAt w aid n i = some d)
    (hks : ∀ k ∈ ks, k < xs.length ∧ k < d.length ∧ d.get? k = some (.int (xs.getD k 0))) :
    writeIdxList w aid i n (.arr xs) ks = (w, none) := by
  induction ks with
  | nil => rfl
  | cons k rest ih =>
    obtain ⟨hkxs, hkd, hkv⟩ := hks k (List.mem_cons_self k rest)
    obtain ⟨x, hx⟩ : ∃ x, xs.get? k = some x := ⟨_, List.get?_eq_some.2 ⟨hkxs, rfl⟩⟩
    have hgetd : xs.getD k 0 = x := by rw [List.getD_eq_get?, hx]; rfl
    have hg : getIndexVal (.arr xs) k = .ok (.int x) := by
      simp only [getIndexVal, hx]
    have hw : writeBufPos w aid i n k (.int x) = (w, none) :=
      writeBufPos_fix hd hkd (by rw [hkv, hgetd])
    rw [writeIdxList_cons_ok hg hw]
    exact ih (fun k' hk' => hks k' (List.mem_cons_of_mem _ hk'))

/-! ### Lemmas about `writeOne` -/

theorem set_zero_of_len_one {d : List Value} (h : d.length = 1) (x : Value) :
    d.set 0 x = [x] := by
  cases d with
  | nil => simp at h
  | cons a l =>
    cases l with
    | nil => rfl
    | cons b l' => simp at h

theorem mkBufferFor_snd_eq_one {ty : String} (h : ty ≠ "array<int>(6)") :
    (mkBufferFor ty).2 = 1 := by
  unfold mkBufferFor
  split_ifs <;> first | rfl | exact absurd (by assumption) h

theorem writeOne_eq_write {w : World} {aid : ArrId} {i : Nat} {eid : ElemId}
    {nm ty : String} {e : ElemState} {v0 v : Value}
    (he : w.elems.get? eid = some e)
    (hf : alookup nm e.fields = some v0)
    (hcast : (if ty = "float" then pyFloat v0
              else if ty = "int" then pyInt v0 else some v0) = some v) :
    writeOne w aid i eid nm ty =
      if ty = "array<int>(6)" then writeIdxList w aid i nm v (List.range 6)
      else if ty = "mat4" then writeBufPos w aid i nm 0 v
      else writeBufPos w aid i nm 0 v := by
  simp only [writeOne, he, hf, hcast]

theorem writeOne_eq_missing {w : World} {aid : ArrId} {i : Nat} {eid : ElemId}
    {nm ty : String} {e : ElemState}
    (he : w.elems.get? eid = some e)
    (hf : alookup nm e.fields = none) :
    writeOne w aid i eid nm ty = (w, some .attributeMissing) := by
  simp only [writeOne, he, hf]

theorem writeOne_frame (w : World) (aid : ArrId) (i : Nat) (eid : ElemId)
    (nm ty : String) : BufFrame aid w (writeOne w aid i eid nm ty).1 := by
  rcases Option.eq_none_or_eq_some (w.elems.get? eid) with he | ⟨e, he⟩
  · have : writeOne w aid i eid nm ty = (w, some .invalidOp) := by
      simp only [writeOne, he]
    rw [this]; exact bufFrame_rfl aid w
  rcases Option.eq_none_or_eq_some (alookup nm e.fields) with hf | ⟨v0, hf⟩
  · rw [writeOne_eq_missing he hf]; exact bufFrame_rfl aid w
  rcases Option.eq_none_or_eq_some
      (if ty = "float" then pyFloat v0 else if ty = "int" then pyInt v0 else some v0) with
    hc | ⟨v, hc⟩
  · have : writeOne w aid i eid nm ty = (w, some .typeError) := by
      simp only [writeOne, he, hf, hc]
    rw [this]; exact bufFrame_rfl aid w
  rw [writeOne_eq_write he hf hc]
  by_cases h6 : ty = "array<int>(6)"
  · rw [if_pos h6]; exact writeIdxList_frame w aid i nm v (List.range 6)
  · rw [if_neg h6, ite_self]; exact writeBufPos_frame w aid i nm 0 v

theorem get?_eq_getD {α : Type} {l : List α} {k : Nat} (x : α) (h : k < l.length) :
    l.get? k = some (l.getD k x) := by
  obtain ⟨y, hy⟩ : ∃ y, l.get? k = some y := ⟨_, List.get?_eq_some.2 ⟨h, rfl⟩⟩
  rw [hy, List.getD_eq_get?, hy]
  rfl

theorem writeOne_chr {w : World} {aid : ArrId} {i : Nat} {eid : ElemId}
    {nm ty : String} {e : ElemState} {v : Value} {d : List Value}
    (he : w.elems.get? eid = some e)
    (hf : alookup nm e.fields = some v)
    (hwrit : fieldWritable ty v = true)
    (hd : bufDataAt w aid nm i = some d)
    (hlen : d.length = (mkBufferFor ty).2) :
    (writeOne w aid i eid nm ty).2 = none ∧
    (∃ s, specSnapshotData ty v = some s ∧
      bufDataAt (writeOne w aid i eid nm ty).1 aid nm i = some s) ∧
    ∀ m j, (m ≠ nm ∨ j ≠ i) →
      bufDataAt (writeOne w aid i eid nm ty).1 aid m j = bufDataAt w aid m j := by
  by_cases hty1 : ty = "float"
  · subst hty1
    unfold fieldWritable at hwrit
    rw [if_neg (by decide), if_pos rfl] at hwrit
    obtain ⟨x, hx⟩ := Option.isSome_iff_exists.1 hwrit
    have hcast : (if "float" = "float" then pyFloat v
        else if "float" = "int" then pyInt v else some v) = some x := by
      rw [if_pos rfl, hx]
    rw [writeOne_eq_write he hf hcast, if_neg (by decide), ite_self]
    have hone : d.length = 1 := by rw [hlen, mkBufferFor_snd_eq_one (by decide)]
    obtain ⟨hsnd, hself, hother⟩ := @writeBufPos_chr w aid i nm 0 x d hd (by omega)
    have hset : d.set 0 x = [x] := set_zero_of_len_one hone x
    refine ⟨hsnd, ⟨[x], ?_, by rw [← hset]; exact hself⟩, hother⟩
    unfold specSnapshotData
    rw [if_neg (by decide), if_pos rfl, hx]
    rfl
  by_cases hty2 : ty = "int"
  · subst hty2
    unfold fieldWritable at hwrit
    rw [if_pos rfl] at hwrit
    obtain ⟨x, hx⟩ := Option.isSome_iff_exists.1 hwrit
    have hcast : (if "int" = "float" then pyFloat v
        else if "int" = "int" then pyInt v else some v) = some x := by
      rw [if_neg (by decide), if_pos rfl, hx]
    rw [writeOne_eq_write he hf hcast, if_neg (by decide), ite_self]
    have hone : d.length = 1 := by rw [hlen, mkBufferFor_snd_eq_one (by decide)]
    obtain ⟨hsnd, hself, hother⟩ := @writeBufPos_chr w aid i nm 0 x d hd (by omega)
    have hset : d.set 0 x = [x] := set_zero_of_len_one hone x
    refine ⟨hsnd, ⟨[x], ?_, by rw [← hset]; exact hself⟩, hother⟩
    unfold specSnapshotData
    rw [if_pos rfl, hx]
    rfl
  by_cases hty3 : ty = "array<int>(6)"
  · subst hty3
    unfold fieldWritable at hwrit
    rw [if_neg (by decide), if_neg (by decide), if_pos rfl] at hwrit
    cases v with
    | arr xs =>
      have hxs : 6 ≤ xs.length := by
        exact of_decide_eq_true hwrit
      have hcast : (if "array<int>(6)" = "float" then pyFloat (.arr xs)
          else if "array<int>(6)" = "int" then pyInt (.arr xs)
          else some (Value.arr xs)) = some (.arr xs) := by
        rw [if_neg (by decide), if_neg (by decide)]
      rw [writeOne_eq_write he hf hcast, if_pos rfl]
      have hsix : d.length = 6 := by
        rw [hlen]; rfl
      have hks : ∀ k ∈ List.range 6, k < xs.length ∧ k < d.length := by
        intro k hk
        have hk6 : k < 6 := List.mem_range.1 hk
        exact ⟨by omega, by omega⟩
      obtain ⟨hsnd, ⟨d', hd', hlen', hget⟩, hother⟩ := writeIdxList_ok (List.range 6) hd hks
      have hd'eq : d' = (xs.take 6).map Value.int := by
        refine List.ext fun k => ?_
        rw [hget k]
        by_cases hk6 : k < 6
        · rw [if_pos (List.mem_range.2 hk6)]
          have hkx : k < xs.length := by omega
          rw [List.get?_map, List.get?_take hk6, get?_eq_getD 0 hkx]
          rfl
        · rw [if_neg (fun hmem => hk6 (List.mem_range.1 hmem))]
          have h1 : d.get? k = none := List.get?_eq_none.2 (by omega)
          have h2 : ((xs.take 6).map Value.int).get? k = none := by
            refine List.get?_eq_none.2 ?_
            rw [List.length_map, List.length_take]
            omega
          rw [h1, h2]
      refine ⟨hsnd, ⟨(xs.take 6).map Value.int, ?_, by rw [← hd'eq]; exact hd'⟩, hother⟩
      unfold specSnapshotData
      rw [if_neg (by decide), if_neg (by decide), if_pos rfl]
      simp only [if_pos hxs]
    | int n => simp at hwrit
    | float q => simp at hwrit
    | vec2 a b => simp at hwrit
    | vec3 a b c => simp at hwrit
    | mat4 m => simp at hwrit
  · have hcast : (if ty = "float" then pyFloat v
        else if ty = "int" then pyInt v else some v) = some v := by
      rw [if_neg hty1, if_neg hty2]
    rw [writeOne_eq_write he hf hcast, if_neg hty3, ite_self]
    have hone : d.length = 1 := by rw [hlen, mkBufferFor_snd_eq_one hty3]
    obtain ⟨hsnd, hself, hother⟩ := @writeBufPos_chr w aid i nm 0 v d hd (by omega)
    have hset : d.set 0 v = [v] := set_zero_of_len_one hone v
    refine ⟨hsnd, ⟨[v], ?_, by rw [← hset]; exact hself⟩, hother⟩
    unfold specSnapshotData
    rw [if_neg hty2, if_neg hty1, if_neg hty3]

theorem writeOne_fix {w : World} {aid : ArrId} {i : Nat} {eid : ElemId}
    {nm ty : String} {e : ElemState} {v : Value} {s : List Value}
    (he : w.elems.get? eid = some e)
    (hf : alookup nm e.fields = some v)
    (hspec : specSnapshotData ty v = some s)
    (hd : bufDataAt w aid nm i = some s) :
    writeOne w aid i eid nm ty = (w, none) := by
  by_cases hty1 : ty = "float"
  · subst hty1
    unfold specSnapshotData at hspec
    rw [if_neg (by decide), if_pos rfl] at hspec
    rcases Option.eq_none_or_eq_some (pyFloat v) with hx | ⟨x, hx⟩
    · rw [hx] at hspec; simp at hspec
    rw [hx] at hspec
    simp only [Option.map_some'] at hspec
    have hs : s = [x] := by injection hspec with h; exact h.symm
    subst hs
    have hcast : (if "float" = "float" then pyFloat v
        else if "float" = "int" then pyInt v else some v) = some x := by
      rw [if_pos rfl, hx]
    rw [writeOne_eq_write he hf hcast, if_neg (by decide), ite_self]
    exact writeBufPos_fix hd (by simp) rfl
  by_cases hty2 : ty = "int"
  · subst hty2
    unfold specSnapshotData at hspec
    rw [if_pos rfl] at hspec
    rcases Option.eq_none_or_eq_some (pyInt v) with hx | ⟨x, hx⟩
    · rw [hx] at hspec; simp at hspec
    rw [hx] at hspec
    simp only [Option.map_some'] at hspec
    have hs : s = [x] := by injection hspec with h; exact h.symm
    subst hs
    have hcast : (if "int" = "float" then pyFloat v
        else if "int" = "int" then pyInt v else some v) = some x := by
      rw [if_neg (by decide), if_pos rfl, hx]
    rw [writeOne_eq_write he hf hcast, if_neg (by decide), ite_self]
    exact writeBufPos_fix hd (by simp) rfl
  by_cases hty3 : ty = "array<int>(6)"
  · subst hty3
    unfold specSnapshotData at hspec
    rw [if_neg (by decide), if_neg (by decide), if_pos rfl] at hspec
    cases v with
    | arr xs =>
      have hspec' : (if 6 ≤ xs.length then some ((xs.take 6).map Value.int) else none)
          = some s := hspec
      by_cases hxs : 6 ≤ xs.length
      · rw [if_pos hxs] at hspec'
        have hs : s = (xs.take 6).map Value.int := by injection hspec' with h; exact h.symm
        subst hs
        have hcast : (if "array<int>(6)" = "float" then pyFloat (.arr xs)
            else if "array<int>(6)" = "int" then pyInt (.arr xs)
            else some (Value.arr xs)) = some (.arr xs) := by
          rw [if_neg (by decide), if_neg (by decide)]
        rw [writeOne_eq_write he hf hcast, if_pos rfl]
        refine writeIdxList_fix (List.range 6) hd ?_
        intro k hk
        have hk6 : k < 6 := List.mem_range.1 hk
        have hslen : ((xs.take 6).map Value.int).length = 6 := by
          rw [List.length_map, List.length_take]
          omega
        refine ⟨by omega, by omega, ?_⟩
        have hkx : k < xs.length := by omega
        rw [List.get?_map, List.get?_take hk6, get?_eq_getD 0 hkx]
        rfl
      · rw [if_neg hxs] at hspec'
        exact absurd hspec' (by simp)
    | int n => simp at hspec
    | float q => simp at hspec
    | vec2 a b => simp at hspec
    | vec3 a b c => simp at hspec
    | mat4 m => simp at hspec
  · unfold specSnapshotData at hspec
    rw [if_neg hty2, if_neg hty1, if_neg hty3] at hspec
    have hs : s = [v] := by injection hspec with h; exact h.symm
    subst hs
    have hcast : (if ty = "float" then pyFloat v
        else if ty = "int" then pyInt v else some v) = some v := by
      rw [if_neg hty1, if_neg hty2]
    rw [writeOne_eq_write he hf hcast, if_neg hty3, ite_self]
    exact writeBufPos_fix hd (by simp) rfl

/-! ### Lemmas about `writeAttrs` -/

/-- The per-slot well-formedness needed to run the attribute loop: every
declared attribute has a backing buffer at this slot whose length matches its
type tag. -/
def WfSlot (w : World) (aid : ArrId) (i : Nat) (attrs : List (String × String)) : Prop :=
  ∀ p ∈ attrs, ∃ d, bufDataAt w aid p.1 i = some d ∧ d.length = (mkBufferFor p.2).2

theorem writeAttrs_cons_ok {w w' : World} {aid : ArrId} {i : Nat} {eid : ElemId}
    {nm ty : String} {rest : List (String × String)}
    (h : writeOne w aid i eid nm ty = (w', none)) :
    writeAttrs w aid i eid ((nm, ty) :: rest) = writeAttrs w' aid i eid rest := by
  simp only [writeAttrs, h]

theorem writeAttrs_cons_err {w w' : World} {aid : ArrId} {i : Nat} {eid : ElemId}
    {nm ty : String} {rest : List (String × String)} {e : PyErr}
    (h : writeOne w aid i eid nm ty = (w', some e)) :
    writeAttrs w aid i eid ((nm, ty) :: rest) = (w', some e) := by
  simp only [writeAttrs, h]

theorem writeAttrs_frame (w : World) (aid : ArrId) (i : Nat) (eid : ElemId)
    (attrs : List (String × String)) : BufFrame aid w (writeAttrs w aid i eid attrs).1 := by
  induction attrs generalizing w with
  | nil => exact bufFrame_rfl aid w
  | cons p rest ih =>
    obtain ⟨nm, ty⟩ := p
    have hfr := writeOne_frame w aid i eid nm ty
    cases hw : writeOne w aid i eid nm ty with
    | mk w' err =>
      rw [hw] at hfr
      cases err with
      | none => rw [writeAttrs_cons_ok hw]; exact bufFrame_trans hfr (ih w')
      | some e => rw [writeAttrs_cons_err hw]; exact hfr

theorem writeAttrs_chr {w : World} {aid : ArrId} {i : Nat} {eid : ElemId}
    {e : ElemState} {attrs : List (String × String)}
    (hnd : (attrs.map Prod.fst).Nodup)
    (he : w.elems.get? eid = some e)
    (hsat : ∀ p ∈ attrs, ∃ v, alookup p.1 e.fields = some v ∧ fieldWritable p.2 v = true)
    (hwf : WfSlot w aid i attrs) :
    (writeAttrs w aid i eid attrs).2 = none ∧
    (∀ p ∈ attrs, ∃ v s, alookup p.1 e.fields = some v ∧ specSnapshotData p.2 v = some s ∧
      bufDataAt (writeAttrs w aid i eid attrs).1 aid p.1 i = some s) ∧
    ∀ m j, (m ∉ attrs.map Prod.fst ∨ j ≠ i) →
      bufDataAt (writeAttrs w aid i eid attrs).1 aid m j = bufDataAt w aid m j := by
  induction attrs generalizing w with
  | nil => exact ⟨rfl, fun p hp => absurd hp (List.not_mem_nil p), fun m j _ => rfl⟩
  | cons p rest ih =>
    obtain ⟨nm, ty⟩ := p
    obtain ⟨v, hfv, hwrit⟩ := hsat (nm, ty) (List.mem_cons_self _ _)
    obtain ⟨d, hd, hlen⟩ := hwf (nm, ty) (List.mem_cons_self _ _)
    obtain ⟨hsnd1, ⟨s, hspec, hself⟩, hother1⟩ := writeOne_chr he hfv hwrit hd hlen
    have hnd' : (nm :: rest.map Prod.fst).Nodup := by simpa using hnd
    have hnm_rest : nm ∉ rest.map Prod.fst := (List.nodup_cons.1 hnd').1
    have hnd_rest : (rest.map Prod.fst).Nodup := (List.nodup_cons.1 hnd').2
    cases hw : writeOne w aid i eid nm ty with
    | mk w₁ err =>
      cases err with
      | some er => rw [hw] at hsnd1; simp at hsnd1
      | none =>
        rw [hw] at hself hother1
        have hfre := writeOne_frame w aid i eid nm ty
        rw [hw] at hfre
        have he₁ : w₁.elems.get? eid = some e := by rw [hfre.1]; exact he
        have hsat₁ : ∀ q ∈ rest, ∃ v', alookup q.1 e.fields = some v' ∧
            fieldWritable q.2 v' = true :=
          fun q hq => hsat q (List.mem_cons_of_mem _ hq)
        have hwf₁ : WfSlot w₁ aid i rest := by
          intro q hq
          obtain ⟨dq, hdq, hlq⟩ := hwf q (List.mem_cons_of_mem _ hq)
          have hq_ne : q.1 ≠ nm := by
            intro hqe
            exact hnm_rest (hqe ▸ List.mem_map.2 ⟨q, hq, rfl⟩)
          refine ⟨dq, ?_, hlq⟩
          rw [hother1 q.1 i (Or.inl hq_ne)]
          exact hdq
        obtain ⟨ihsnd, ihcont, ihother⟩ := ih hnd_rest he₁ hsat₁ hwf₁
        rw [writeAttrs_cons_ok hw]
        refine ⟨ihsnd, ?_, ?_⟩
        · intro q hq
          rcases List.mem_cons.1 hq with hq1 | hq2
          · subst hq1
            refine ⟨v, s, hfv, hspec, ?_⟩
            rw [ihother nm i (Or.inl hnm_rest)]
            exact hself
          · exact ihcont q hq2
        · intro m j hmj
          have hmj_rest : m ∉ rest.map Prod.fst ∨ j ≠ i := by
            rcases hmj with hm | hj
            · left; intro hmem; exact hm (by simp [List.mem_cons]; right; simpa using hmem)
            · right; exact hj
          have hmj_one : m ≠ nm ∨ j ≠ i := by
            rcases hmj with hm | hj
            · left; intro hme; exact hm (by simp [hme])
            · right; exact hj
          rw [ihother m j hmj_rest, hother1 m j hmj_one]

theorem writeAttrs_fix {w : World} {aid : ArrId} {i : Nat} {eid : ElemId}
    {e : ElemState} {attrs : List (String × String)}
    (he : w.elems.get? eid = some e)
    (hfix : ∀ p ∈ attrs, ∃ v s, alookup p.1 e.fields = some v ∧
      specSnapshotData p.2 v = some s ∧ bufDataAt w aid p.1 i = some s) :
    writeAttrs w aid i eid attrs = (w, none) := by
  induction attrs with
  | nil => rfl
  | cons p rest ih =>
    obtain ⟨nm, ty⟩ := p
    obtain ⟨v, s, hfv, hspec, hd⟩ := hfix (nm, ty) (List.mem_cons_self _ _)
    have hw : writeOne w aid i eid nm ty = (w, none) := writeOne_fix he hfv hspec hd
    rw [writeAttrs_cons_ok hw]
    exact ih (fun q hq => hfix q (List.mem_cons_of_mem _ hq))

/-! ### Lemmas about the back-reference bookkeeping -/

theorem removeListRef_eq_none {w : World} {x : ElemId} {aid : ArrId}
    (h : w.elems.get? x = none) : removeListRefW w x aid = w := by
  simp only [removeListRefW, h]

theorem removeListRef_eq_mem {w : World} {x : ElemId} {aid : ArrId} {e : ElemState}
    (h : w.elems.get? x = some e) (hm : aid ∈ e.referencedLists) :
    removeListRefW w x aid =
      setElemState w x { e with referencedLists := e.referencedLists.erase aid } := by
  simp only [removeListRefW, h, if_pos hm]

theorem removeListRef_eq_notmem {w : World} {x : ElemId} {aid : ArrId} {e : ElemState}
    (h : w.elems.get? x = some e) (hm : aid ∉ e.referencedLists) :
    removeListRefW w x aid = w := by
  simp only [removeListRefW, h, if_neg hm]

theorem addListRef_eq_mem {w : World} {x : ElemId} {aid : ArrId} {e : ElemState}
    (h : w.elems.get? x = some e) (hm : aid ∈ e.referencedLists) :
    addListRefW w x aid = w := by
  simp only [addListRefW, h, if_pos hm]

theorem addListRef_eq_notmem {w : World} {x : ElemId} {aid : ArrId} {e : ElemState}
    (h : w.elems.get? x = some e) (hm : aid ∉ e.referencedLists) :
    addListRefW w x aid =
      setElemState w x { e with referencedLists := e.referencedLists ++ [aid] } := by
  simp only [addListRefW, h, if_neg hm]

theorem arrays_removeListRef (w : World) (x : ElemId) (aid : ArrId) :
    (removeListRefW w x aid).arrays = w.arrays := by
  rcases Option.eq_none_or_eq_some (w.elems.get? x) with h | ⟨e, h⟩
  · rw [removeListRef_eq_none h]
  · by_cases hm : aid ∈ e.referencedLists
    · rw [removeListRef_eq_mem h hm]; rfl
    · rw [removeListRef_eq_notmem h hm]

theorem arrays_addListRef (w : World) (x : ElemId) (aid : ArrId) :
    (addListRefW w x aid).arrays = w.arrays := by
  rcases Option.eq_none_or_eq_some (w.elems.get? x) with h | ⟨e, h⟩
  · simp only [addListRefW, h]
  · by_cases hm : aid ∈ e.referencedLists
    · rw [addListRef_eq_mem h hm]
    · rw [addListRef_eq_notmem h hm]; rfl

theorem refs_removeListRef {w : World} {x : ElemId} {aid : ArrId} {k : ElemId} {e' : ElemState}
    (h : (removeListRefW w x aid).elems.get? k = some e') :
    ∃ e, w.elems.get? k = some e ∧ e'.fields = e.fields ∧
      (∀ y ∈ e'.referencedLists, y ∈ e.referencedLists) ∧
      (e.referencedLists.Nodup → e'.referencedLists.Nodup) ∧
      (k ≠ x → e' = e) ∧
      (k = x → aid ∈ e.referencedLists → e.referencedLists.Nodup →
        aid ∉ e'.referencedLists) := by
  rcases Option.eq_none_or_eq_some (w.elems.get? x) with hx | ⟨ex, hx⟩
  · rw [removeListRef_eq_none hx] at h
    exact ⟨e', h, rfl, fun y hy => hy, fun hd => hd, fun _ => rfl, by
      intro hkx; subst hkx; rw [h] at hx; simp at hx⟩
  by_cases hm : aid ∈ ex.referencedLists
  · rw [removeListRef_eq_mem hx hm] at h
    unfold setElemState at h
    by_cases hkx : k = x
    · subst hkx
      have hlt : k < w.elems.length := (List.get?_eq_some.1 hx).1
      rw [get?_set_self _ hlt] at h
      injection h with h
      subst h
      refine ⟨ex, hx, rfl, ?_, ?_, fun hkk => absurd rfl hkk, ?_⟩
      · exact fun y hy => List.mem_of_mem_erase hy
      · exact fun hd => hd.erase aid
      · intro _ _ hd
        intro hmem
        exact absurd ((hd.mem_erase_iff.1 hmem).1) (fun hne => hne rfl)
    · rw [List.get?_set_ne _ _ (fun hh => hkx hh.symm)] at h
      exact ⟨e', h, rfl, fun y hy => hy, fun hd => hd, fun _ => rfl,
        fun hkk => absurd hkk hkx⟩
  · rw [removeListRef_eq_notmem hx hm] at h
    refine ⟨e', h, rfl, fun y hy => hy, fun hd => hd, fun _ => rfl, ?_⟩
    intro hkx hmem _
    subst hkx
    rw [h] at hx
    injection hx with hx
    subst hx
    exact absurd hmem hm

theorem refs_addListRef {w : World} {x : ElemId} {aid : ArrId} {k : ElemId} {e' : ElemState}
    (h : (addListRefW w x aid).elems.get? k = some e') :
    ∃ e, w.elems.get? k = some e ∧ e'.fields = e.fields ∧
      (∀ y ∈ e'.referencedLists, y ∈ e.referencedLists ∨ y = aid) ∧
      (e.referencedLists.Nodup → e'.referencedLists.Nodup) ∧
      (k ≠ x → e' = e) := by
  rcases Option.eq_none_or_eq_some (w.elems.get? x) with hx | ⟨ex, hx⟩
  · simp only [addListRefW, hx] at h
    exact ⟨e', h, rfl, fun y hy => Or.inl hy, fun hd => hd, fun _ => rfl⟩
  by_cases hm : aid ∈ ex.referencedLists
  · rw [addListRef_eq_mem hx hm] at h
    exact ⟨e', h, rfl, fun y hy => Or.inl hy, fun hd => hd, fun _ => rfl⟩
  · rw [addListRef_eq_notmem hx hm] at h
    unfold setElemState at h
    by_cases hkx : k = x
    · subst hkx
      have hlt : k < w.elems.length := (List.get?_eq_some.1 hx).1
      rw [get?_set_self _ hlt] at h
      injection h with h
      subst h
      refine ⟨ex, hx, rfl, ?_, ?_, fun hkk => absurd rfl hkk⟩
      · intro y hy
        rcases List.mem_append.1 hy with hy1 | hy2
        · exact Or.inl hy1
        · simp at hy2; exact Or.inr hy2
      · intro hd
        rw [List.nodup_append]
        exact ⟨hd, List.nodup_singleton aid, by
          intro y hy1 hy2
          simp at hy2
          subst hy2
          exact hm hy1⟩
    · rw [List.get?_set_ne _ _ (fun hh => hkx hh.symm)] at h
      exact ⟨e', h, rfl, fun y hy => Or.inl hy, fun hd => hd, fun _ => rfl⟩

theorem addListRef_self {w : World} {x : ElemId} (aid : ArrId) {e : ElemState}
    (h : w.elems.get? x = some e) :
    ∃ e', (addListRefW w x aid).elems.get? x = some e' ∧ e'.fields = e.fields ∧
      aid ∈ e'.referencedLists := by
  by_cases hm : aid ∈ e.referencedLists
  · rw [addListRef_eq_mem h hm]
    exact ⟨e, h, rfl, hm⟩
  · rw [addListRef_eq_notmem h hm]
    unfold setElemState
    have hlt : x < w.elems.length := (List.get?_eq_some.1 h).1
    refine ⟨_, get?_set_self _ hlt, rfl, ?_⟩
    simp

theorem fields_removeListRef (w : World) (x : ElemId) (aid : ArrId) (k : ElemId) :
    ((removeListRefW w x aid).elems.get? k).map ElemState.fields
      = (w.elems.get? k).map ElemState.fields := by
  rcases Option.eq_none_or_eq_some (w.elems.get? x) with hx | ⟨ex, hx⟩
  · rw [removeListRef_eq_none hx]
  by_cases hm : aid ∈ ex.referencedLists
  · rw [removeListRef_eq_mem hx hm]
    unfold setElemState
    by_cases hkx : k = x
    · subst hkx
      have hlt : k < w.elems.length := (List.get?_eq_some.1 hx).1
      rw [get?_set_self _ hlt, hx]
      rfl
    · rw [List.get?_set_ne _ _ (fun hh => hkx hh.symm)]
  · rw [removeListRef_eq_notmem hx hm]

theorem fields_addListRef (w : World) (x : ElemId) (aid : ArrId) (k : ElemId) :
    ((addListRefW w x aid).elems.get? k).map ElemState.fields
      = (w.elems.get? k).map ElemState.fields := by
  rcases Option.eq_none_or_eq_some (w.elems.get? x) with hx | ⟨ex, hx⟩
  · simp only [addListRefW, hx]
  by_cases hm : aid ∈ ex.referencedLists
  · rw [addListRef_eq_mem hx hm]
  · rw [addListRef_eq_notmem hx hm]
    unfold setElemState
    by_cases hkx : k = x
    · subst hkx
      have hlt : k < w.elems.length := (List.get?_eq_some.1 hx).1
      rw [get?_set_self _ hlt, hx]
      rfl
    · rw [List.get?_set_ne _ _ (fun hh => hkx hh.symm)]

/-! ### Lemmas about `setAssignedW` and the `arrSetItem` case equations -/

theorem setAssigned_eq {w : World} {aid : ArrId} {a : ArrState} {i : Nat} {v : Option ElemId}
    (ha : w.arrays.get? aid = some a) :
    setAssignedW w aid i v
      = setArrState w aid { a with assignedObjects := a.assignedObjects.set i v } := by
  simp only [setAssignedW, ha]

theorem elems_setAssigned (w : World) (aid : ArrId) (i : Nat) (v : Option ElemId) :
    (setAssignedW w aid i v).elems = w.elems := by
  rcases Option.eq_none_or_eq_some (w.arrays.get? aid) with ha | ⟨a, ha⟩
  · simp only [setAssignedW, ha]
  · rw [setAssigned_eq ha]; rfl

theorem bufDataAt_setAssigned (w : World) (aid : ArrId) (i : Nat) (v : Option ElemId)
    (k : ArrId) (n : String) (j : Nat) :
    bufDataAt (setAssignedW w aid i v) k n j = bufDataAt w k n j := by
  rcases Option.eq_none_or_eq_some (w.arrays.get? aid) with ha | ⟨a, ha⟩
  · simp only [setAssignedW, ha]
  rw [setAssigned_eq ha]
  unfold bufDataAt setArrState
  by_cases hk : k = aid
  · subst hk
    have hlt : k < w.arrays.length := (List.get?_eq_some.1 ha).1
    rw [get?_set_self _ hlt, ha]
    rfl
  · rw [List.get?_set_ne _ _ (fun hh => hk hh.symm)]

theorem bufDataAt_eq_of_arrays_eq {w w' : World} (h : w'.arrays = w.arrays)
    (k : ArrId) (n : String) (j : Nat) : bufDataAt w' k n j = bufDataAt w k n j := by
  unfold bufDataAt
  rw [h]

theorem arrSetItem_eq_oob {w : World} {aid : ArrId} {index : Int} {value : Option ElemId}
    {a : ArrState} (ha : w.arrays.get? aid = some a)
    (h : index < 0 ∨ (a.size : Int) ≤ index) :
    arrSetItem w aid index value = (w, some .outOfBounds) := by
  simp only [arrSetItem, ha]
  rw [if_pos h]

theorem arrSetItem_eq_noslot {w : World} {aid : ArrId} {index : Int} {value : Option ElemId}
    {a : ArrState} (ha : w.arrays.get? aid = some a)
    (hidx : ¬(index < 0 ∨ (a.size : Int) ≤ index))
    (hold : a.assignedObjects.get? index.toNat = none) :
    arrSetItem w aid index value = (w, some .indexError) := by
  simp only [arrSetItem, ha, hold]
  rw [if_neg hidx]

theorem arrSetItem_eq_none_val {w : World} {aid : ArrId} {index : Int}
    {a : ArrState} {oldObject : Option ElemId} (ha : w.arrays.get? aid = some a)
    (hidx : ¬(index < 0 ∨ (a.size : Int) ≤ index))
    (hold : a.assignedObjects.get? index.toNat = some oldObject) :
    arrSetItem w aid index none = (w, some .noneAttr) := by
  simp only [arrSetItem, ha, hold]
  rw [if_neg hidx]

theorem arrSetItem_eq_some_nold {w : World} {aid : ArrId} {index : Int} {vid : ElemId}
    {a : ArrState} (ha : w.arrays.get? aid = some a)
    (hidx : ¬(index < 0 ∨ (a.size : Int) ≤ index))
    (hold : a.assignedObjects.get? index.toNat = some none) :
    arrSetItem w aid index (some vid) =
      writeAttrs (setAssignedW (addListRefW w vid aid) aid index.toNat (some vid))
        aid index.toNat vid a.attributes := by
  simp only [arrSetItem, ha, hold]
  rw [if_neg hidx]

theorem arrSetItem_eq_some_same {w : World} {aid : ArrId} {index : Int} {vid : ElemId}
    {a : ArrState} (ha : w.arrays.get? aid = some a)
    (hidx : ¬(index < 0 ∨ (a.size : Int) ≤ index))
    (hold : a.assignedObjects.get? index.toNat = some (some vid)) :
    arrSetItem w aid index (some vid) =
      writeAttrs (setAssignedW (addListRefW w vid aid) aid index.toNat (some vid))
        aid index.toNat vid a.attributes := by
  simp only [arrSetItem, ha, hold]
  rw [if_neg hidx]
  have : ¬(vid ≠ vid) := fun hh => hh rfl
  rw [if_neg this]

theorem arrSetItem_eq_some_diff {w : World} {aid : ArrId} {index : Int} {vid old : ElemId}
    {a : ArrState} (ha : w.arrays.get? aid = some a)
    (hidx : ¬(index < 0 ∨ (a.size : Int) ≤ index))
    (hold : a.assignedObjects.get? index.toNat = some (some old))
    (hne : old ≠ vid) :
    arrSetItem w aid index (some vid) =
      writeAttrs (setAssignedW (addListRefW (removeListRefW w old aid) vid aid)
        aid index.toNat (some vid)) aid index.toNat vid a.attributes := by
  simp only [arrSetItem, ha, hold]
  rw [if_neg hidx]
  rw [if_pos hne]

/-! ### Well-formedness extraction and the `arrSetItem` characterization -/

theorem wfArr_iff {a : ArrState} : wfArr a = true ↔
    a.assignedObjects.length = a.size ∧
    ∀ p ∈ a.attributes, ∃ bufs, alookup p.1 a.ptaWrappers = some bufs ∧
      bufs.length = a.size ∧ ∀ b ∈ bufs, bufShape b = mkBufferFor p.2 := by
  unfold wfArr
  rw [Bool.and_eq_true, beq_iff_eq, List.all_eq_true]
  constructor
  · rintro ⟨hlen, hall⟩
    refine ⟨hlen, fun p hp => ?_⟩
    have h := hall p hp
    rcases Option.eq_none_or_eq_some (alookup p.1 a.ptaWrappers) with hl | ⟨bufs, hl⟩
    · rw [hl] at h; simp at h
    rw [hl] at h
    simp only [Bool.and_eq_true, beq_iff_eq, List.all_eq_true, decide_eq_true_eq] at h
    exact ⟨bufs, hl, h.1, h.2⟩
  · rintro ⟨hlen, hall⟩
    refine ⟨hlen, fun p hp => ?_⟩
    obtain ⟨bufs, hl, hblen, hbsh⟩ := hall p hp
    rw [hl]
    simp only [Bool.and_eq_true, beq_iff_eq, List.all_eq_true, decide_eq_true_eq]
    exact ⟨hblen, hbsh⟩

theorem elemSatisfies_iff {attrs : List (String × String)} {flds : List (String × Value)} :
    elemSatisfies attrs flds = true ↔
    ∀ p ∈ attrs, ∃ v, alookup p.1 flds = some v ∧ fieldWritable p.2 v = true := by
  unfold elemSatisfies
  rw [List.all_eq_true]
  constructor
  · intro hall p hp
    have h := hall p hp
    rcases Option.eq_none_or_eq_some (alookup p.1 flds) with hl | ⟨v, hl⟩
    · rw [hl] at h; simp at h
    rw [hl] at h
    exact ⟨v, hl, h⟩
  · intro hall p hp
    obtain ⟨v, hl, hwrit⟩ := hall p hp
    rw [hl]
    exact hwrit

theorem wfSlot_of_wfArr {w : World} {aid : ArrId} {a : ArrState} {i : Nat}
    (ha : w.arrays.get? aid = some a) (hwf : wfArr a = true) (hi : i < a.size) :
    WfSlot w aid i a.attributes := by
  intro p hp
  obtain ⟨bufs, hl, hblen, hbsh⟩ := (wfArr_iff.1 hwf).2 p hp
  have hib : i < bufs.length := by omega
  obtain ⟨b, hb⟩ : ∃ b, bufs.get? i = some b := ⟨_, List.get?_eq_some.2 ⟨hib, rfl⟩⟩
  refine ⟨b.data, ?_, ?_⟩
  · unfold bufDataAt
    rw [ha]
    simp only [Option.some_bind]
    rw [hl]
    simp only [Option.some_bind]
    rw [hb]
    rfl
  · have := hbsh b (List.get?_mem hb)
    unfold bufShape at this
    exact congrArg Prod.snd this

theorem alookup_map {κ α β : Type} [DecidableEq κ] (k : κ) (f : α → β) (l : List (κ × α)) :
    alookup k (l.map fun p => (p.1, f p.2)) = (alookup k l).map f := by
  induction l with
  | nil => rfl
  | cons p rest ih =>
    by_cases hp : p.1 = k
    · simp [alookup, hp]
    · simp [alookup, hp, ih]

theorem wfSlot_transport {w w' : World} {aid : ArrId} {i : Nat}
    {attrs : List (String × String)}
    (h : ∀ n j, bufDataAt w' aid n j = bufDataAt w aid n j)
    (hwf : WfSlot w aid i attrs) : WfSlot w' aid i attrs := by
  intro p hp
  obtain ⟨d, hd, hl⟩ := hwf p hp
  exact ⟨d, by rw [h p.1 i]; exact hd, hl⟩

theorem arrSetItem_chr_core {w w₁ : World} {aid : ArrId} {i : Nat} {eid : ElemId}
    {a : ArrState} {e : ElemState}
    (ha : w.arrays.get? aid = some a)
    (hwf : wfArr a = true)
    (hnd : (a.attributes.map Prod.fst).Nodup)
    (hi : i < a.size)
    (he : w.elems.get? eid = some e)
    (hsat : elemSatisfies a.attributes e.fields = true)
    (harr₁ : w₁.arrays = w.arrays)
    (hfields₁ : ∀ k, (w₁.elems.get? k).map ElemState.fields
      = (w.elems.get? k).map ElemState.fields) :
    (writeAttrs (setAssignedW (addListRefW w₁ eid aid) aid i (some eid))
        aid i eid a.attributes).2 = none ∧
    (∀ p ∈ a.attributes, ∃ v s, alookup p.1 e.fields = some v ∧
      specSnapshotData p.2 v = some s ∧
      bufDataAt (writeAttrs (setAssignedW (addListRefW w₁ eid aid) aid i (some eid))
        aid i eid a.attributes).1 aid p.1 i = some s) ∧
    (∀ m j, (m ∉ a.attributes.map Prod.fst ∨ j ≠ i) →
      bufDataAt (writeAttrs (setAssignedW (addListRefW w₁ eid aid) aid i (some eid))
        aid i eid a.attributes).1 aid m j = bufDataAt w aid m j) ∧
    (∃ a', (writeAttrs (setAssignedW (addListRefW w₁ eid aid) aid i (some eid))
        aid i eid a.attributes).1.arrays.get? aid = some a' ∧
      skelOf a' = (a.attributes, a.size, a.assignedObjects.set i (some eid), a.parents) ∧
      wrapShapes a' = wrapShapes a) ∧
    (∀ k, k ≠ aid → (writeAttrs (setAssignedW (addListRefW w₁ eid aid) aid i (some eid))
        aid i eid a.attributes).1.arrays.get? k = w.arrays.get? k) ∧
    (∃ e', (writeAttrs (setAssignedW (addListRefW w₁ eid aid) aid i (some eid))
        aid i eid a.attributes).1.elems.get? eid = some e' ∧
      e'.fields = e.fields ∧ aid ∈ e'.referencedLists) := by
  -- the element survives into w₁ with the same fields
  obtain ⟨e₁, he₁, hef₁⟩ : ∃ e₁, w₁.elems.get? eid = some e₁ ∧ e₁.fields = e.fields := by
    have h := hfields₁ eid
    rw [he] at h
    obtain ⟨e₁, h1, h2⟩ := Option.map_eq_some'.1 h
    exact ⟨e₁, h1, h2⟩
  -- after addListReference
  obtain ⟨e₂, he₂, hef₂, hmem₂⟩ := addListRef_self aid he₁
  have harr₂ : (addListRefW w₁ eid aid).arrays = w.arrays := by
    rw [arrays_addListRef, harr₁]
  have ha₂ : (addListRefW w₁ eid aid).arrays.get? aid = some a := by
    rw [harr₂]; exact ha
  -- after the slot store
  have hw₃ : setAssignedW (addListRefW w₁ eid aid) aid i (some eid)
      = setArrState (addListRefW w₁ eid aid) aid
        { a with assignedObjects := a.assignedObjects.set i (some eid) } :=
    setAssigned_eq ha₂
  have hlt : aid < (addListRefW w₁ eid aid).arrays.length := (List.get?_eq_some.1 ha₂).1
  have ha₃ : (setAssignedW (addListRefW w₁ eid aid) aid i (some eid)).arrays.get? aid
      = some { a with assignedObjects := a.assignedObjects.set i (some eid) } := by
    rw [hw₃]
    unfold setArrState
    exact get?_set_self _ hlt
  have he₃ : (setAssignedW (addListRefW w₁ eid aid) aid i (some eid)).elems.get? eid
      = some e₂ := by
    rw [elems_setAssigned]
    exact he₂
  have hbuf₃ : ∀ k n j,
      bufDataAt (setAssignedW (addListRefW w₁ eid aid) aid i (some eid)) k n j
        = bufDataAt w k n j := by
    intro k n j
    rw [bufDataAt_setAssigned]
    exact bufDataAt_eq_of_arrays_eq harr₂ k n j
  have hwfslot : WfSlot (setAssignedW (addListRefW w₁ eid aid) aid i (some eid))
      aid i a.attributes :=
    wfSlot_transport (fun n j => hbuf₃ aid n j) (wfSlot_of_wfArr ha hwf hi)
  have hsat₃ : ∀ p ∈ a.attributes, ∃ v, alookup p.1 e₂.fields = some v ∧
      fieldWritable p.2 v = true := by
    rw [hef₂, hef₁]
    exact elemSatisfies_iff.1 hsat
  obtain ⟨hsnd, hcont, hother⟩ := writeAttrs_chr hnd he₃ hsat₃ hwfslot
  have hfr := writeAttrs_frame (setAssignedW (addListRefW w₁ eid aid) aid i (some eid))
    aid i eid a.attributes
  refine ⟨hsnd, ?_, ?_, ?_, ?_, ?_⟩
  · intro p hp
    obtain ⟨v, s, hv, hs, hb⟩ := hcont p hp
    rw [hef₂, hef₁] at hv
    exact ⟨v, s, hv, hs, hb⟩
  · intro m j hmj
    rw [hother m j hmj]
    exact hbuf₃ aid m j
  · have hskel := hfr.2.2.1
    have hshape := hfr.2.2.2
    rw [ha₃] at hskel hshape
    simp only [Option.map_some'] at hskel hshape
    obtain ⟨a', ha', hs'⟩ := Option.map_eq_some'.1 hskel
    obtain ⟨a'', ha'', hs''⟩ := Option.map_eq_some'.1 hshape
    rw [ha'] at ha''
    injection ha'' with haa
    subst haa
    refine ⟨a', ha', ?_, ?_⟩
    · rw [hs']
      rfl
    · rw [hs'']
      rfl
  · intro k hk
    rw [hfr.2.1 k hk, hw₃]
    unfold setArrState
    rw [List.get?_set_ne _ _ (fun hh => hk hh.symm), harr₂]
  · refine ⟨e₂, ?_, hef₂.trans hef₁, hmem₂⟩
    rw [hfr.1]
    exact he₃

theorem arrSetItem_chr {w : World} {aid : ArrId} {i : Nat} {eid : ElemId}
    {a : ArrState} {e : ElemState}
    (ha : w.arrays.get? aid = some a)
    (hwf : wfArr a = true)
    (hnd : (a.attributes.map Prod.fst).Nodup)
    (hi : i < a.size)
    (he : w.elems.get? eid = some e)
    (hsat : elemSatisfies a.attributes e.fields = true) :
    (arrSetItem w aid (i : Int) (some eid)).2 = none ∧
    (∀ p ∈ a.attributes, ∃ v s, alookup p.1 e.fields = some v ∧
      specSnapshotData p.2 v = some s ∧
      bufDataAt (arrSetItem w aid (i : Int) (some eid)).1 aid p.1 i = some s) ∧
    (∀ m j, (m ∉ a.attributes.map Prod.fst ∨ j ≠ i) →
      bufDataAt (arrSetItem w aid (i : Int) (some eid)).1 aid m j = bufDataAt w aid m j) ∧
    (∃ a', (arrSetItem w aid (i : Int) (some eid)).1.arrays.get? aid = some a' ∧
      skelOf a' = (a.attributes, a.size, a.assignedObjects.set i (some eid), a.parents) ∧
      wrapShapes a' = wrapShapes a) ∧
    (∀ k, k ≠ aid → (arrSetItem w aid (i : Int) (some eid)).1.arrays.get? k
      = w.arrays.get? k) ∧
    (∃ e', (arrSetItem w aid (i : Int) (some eid)).1.elems.get? eid = some e' ∧
      e'.fields = e.fields ∧ aid ∈ e'.referencedLists) := by
  have hidx : ¬((i : Int) < 0 ∨ (a.size : Int) ≤ (i : Int)) := by
    push_neg
    constructor <;> omega
  have htn : ((i : Int)).toNat = i := Int.toNat_natCast i
  have hil : i < a.assignedObjects.length := by
    rw [(wfArr_iff.1 hwf).1]; exact hi
  obtain ⟨old, hold⟩ : ∃ old, a.assignedObjects.get? i = some old :=
    ⟨_, List.get?_eq_some.2 ⟨hil, rfl⟩⟩
  have hold' : a.assignedObjects.get? ((i : Int)).toNat = some old := by rw [htn]; exact hold
  cases old with
  | none =>
    rw [arrSetItem_eq_some_nold ha hidx hold', htn]
    exact arrSetItem_chr_core ha hwf hnd hi he hsat rfl (fun k => rfl)
  | some old =>
    by_cases hov : old = eid
    · subst hov
      rw [arrSetItem_eq_some_same ha hidx hold', htn]
      exact arrSetItem_chr_core ha hwf hnd hi he hsat rfl (fun k => rfl)
    · rw [arrSetItem_eq_some_diff ha hidx hold' hov, htn]
      exact arrSetItem_chr_core ha hwf hnd hi he hsat
        (arrays_removeListRef w old aid) (fields_removeListRef w old aid)

/-! ### The constructor establishes well-formedness -/

theorem alookup_map_of_nodup {α β : Type} {attrs : List (String × α)} {p : String × α}
    (f : String × α → β) (hnd : (attrs.map Prod.fst).Nodup) (hp : p ∈ attrs) :
    alookup p.1 (attrs.map fun q => (q.1, f q)) = some (f p) := by
  induction attrs with
  | nil => simp at hp
  | cons q rest ih =>
    have hnd' : (q.1 :: rest.map Prod.fst).Nodup := by simpa using hnd
    rcases List.mem_cons.1 hp with hp1 | hp2
    · subst hp1
      simp [alookup]
    · by_cases hq : q.1 = p.1
      · exfalso
        exact (List.nodup_cons.1 hnd').1 (hq ▸ List.mem_map.2 ⟨p, hp2, rfl⟩)
      · simp only [List.map_cons, alookup, hq, if_neg hq]
        exact ih (List.nodup_cons.1 hnd').2 hp2

theorem wfArr_mkStructArray (attrs : List (String × String)) (size : Nat)
    (hnd : (attrs.map Prod.fst).Nodup) : wfArr (mkStructArray attrs size) = true := by
  rw [wfArr_iff]
  constructor
  · simp [mkStructArray]
  · intro p hp
    refine ⟨List.replicate size (emptyArray (mkBufferFor p.2).1 (mkBufferFor p.2).2), ?_, ?_, ?_⟩
    · exact alookup_map_of_nodup _ hnd hp
    · simp [mkStructArray]
    · intro b hb
      have hbe := List.eq_of_mem_replicate hb
      subst hbe
      unfold bufShape emptyArray
      simp

/-! ### Claim theorems -/

/-- C2: for every valid index and every element satisfying the declared schema,
after `setSlot(index, element)` (the `[]` assignment) returns successfully, each
declared attribute's backing buffer at that slot holds the snapshot of the
element's corresponding field: cast by `int()` when the schema says `int`, cast
by `float()` when it says `float`, all 6 positions copied elementwise for the
`array<int>(6)` type, and position 0 of a length-1 buffer overwritten with the
unconverted value for every other type (`specSnapshotData` spells out exactly
this sentence of the spec). -/
theorem setSlot_snapshot {w : World} {aid : ArrId} {i : Nat} {eid : ElemId}
    {a : ArrState} {e : ElemState}
    (ha : w.arrays.get? aid = some a)
    (hwf : wfArr a = true)
    (hnd : (a.attributes.map Prod.fst).Nodup)
    (hi : i < a.size)
    (he : w.elems.get? eid = some e)
    (hsat : elemSatisfies a.attributes e.fields = true) :
    (arrSetItem w aid (i : Int) (some eid)).2 = none ∧
    ∀ p ∈ a.attributes, ∃ v s, alookup p.1 e.fields = some v ∧
      specSnapshotData p.2 v = some s ∧
      bufDataAt (arrSetItem w aid (i : Int) (some eid)).1 aid p.1 i = some s := by
  obtain ⟨h1, h2, _⟩ := arrSetItem_chr ha hwf hnd hi he hsat
  exact ⟨h1, h2⟩

/-- The schema used by the C2 witness, exercising every type tag. -/
def c2Attrs : List (String × String) :=
  [("a", "int"), ("b", "float"), ("c", "vec3"),
   ("d", "array<int>(6)"), ("m", "mat4"), ("f", "vec2")]

/-- The element fields used by the C2 witness. -/
def c2Fields : List (String × Value) :=
  [("a", Value.float 7), ("b", Value.int 3), ("c", Value.vec3 1 2 3),
   ("d", Value.arr [1, 2, 3, 4, 5, 6, 7]), ("m", Value.mat4 []), ("f", Value.vec2 4 5)]

/-- The heap used by the C2 witness: one element, one fresh 2-slot array. -/
def c2World : World := runTrace [.newElem c2Fields, .newArray c2Attrs 2]

/-- Witness for C2 at a concrete input exercising every type tag: an element
with an int, float, vec2, vec3, mat4 and 6-int-array field assigned into slot 1
of a fresh 2-slot array. -/
theorem setSlot_snapshot_witness :
    (c2World.arrays.get? 0 = some (mkStructArray c2Attrs 2) ∧
     wfArr (mkStructArray c2Attrs 2) = true ∧
     c2World.elems.get? 0 = some ⟨[], c2Fields⟩ ∧
     elemSatisfies (mkStructArray c2Attrs 2).attributes c2Fields = true ∧
     (1 : Nat) < (mkStructArray c2Attrs 2).size) ∧
    (arrSetItem c2World 0 (1 : Nat) (some 0)).2 = none := by
  refine ⟨⟨by decide, by decide, by decide, by decide, by decide⟩, ?_⟩
  exact (@setSlot_snapshot c2World 0 1 0 (mkStructArray c2Attrs 2) ⟨[], c2Fields⟩
    (by decide) (by decide) (by decide) (by decide) (by decide) (by decide)).1

/-- C5: for every array of size `n` and every index outside `[0, n)` (in
particular `-1` and `n`), `setSlot(index, element)` raises the out-of-bounds
error, and the call performs no mutation at all: the entire heap — slot
assignments, buffer contents and back-reference sets — is returned exactly as
it was. -/
theorem setSlot_oob {w : World} {aid : ArrId} {index : Int} {value : Option ElemId}
    {a : ArrState} (ha : w.arrays.get? aid = some a)
    (h : index < 0 ∨ (a.size : Int) ≤ index) :
    arrSetItem w aid index value = (w, some .outOfBounds) :=
  arrSetItem_eq_oob ha h

/-- Witness for C5: both `setSlot(-1, E)` and `setSlot(size, E)` on a fresh
1-slot array fail with the out-of-bounds error and leave the heap untouched. -/
theorem setSlot_oob_witness :
    ((runTrace [.newElem [("v", Value.int 1)], .newArray [("v", "int")] 1]).arrays.get? 0
      = some (mkStructArray [("v", "int")] 1)) ∧
    (arrSetItem (runTrace [.newElem [("v", Value.int 1)], .newArray [("v", "int")] 1])
        0 (-1) (some 0)
      = (runTrace [.newElem [("v", Value.int 1)], .newArray [("v", "int")] 1],
         some .outOfBounds)) ∧
    (arrSetItem (runTrace [.newElem [("v", Value.int 1)], .newArray [("v", "int")] 1])
        0 1 (some 0)
      = (runTrace [.newElem [("v", Value.int 1)], .newArray [("v", "int")] 1],
         some .outOfBounds)) := by
  refine ⟨by decide, ?_, ?_⟩
  · exact setSlot_oob (a := mkStructArray [("v", "int")] 1) (by decide) (by decide)
  · exact setSlot_oob (a := mkStructArray [("v", "int")] 1) (by decide) (by decide)

/-- C8 (the code path the claim describes): assigning the sentinel `None` at a
valid index is NOT a supported operation in the code as written — line 184
(`value.addListReference(self)`) raises `AttributeError` on `None` before the
slot is stored, so the call fails and the slot is left exactly as it was
(the heap is returned unchanged). -/
theorem setSlot_none_raises {w : World} {aid : ArrId} {index : Int}
    {a : ArrState} {oldObject : Option ElemId}
    (ha : w.arrays.get? aid = some a)
    (hidx : ¬(index < 0 ∨ (a.size : Int) ≤ index))
    (hold : a.assignedObjects.get? index.toNat = some oldObject) :
    arrSetItem w aid index none = (w, some .noneAttr) :=
  arrSetItem_eq_none_val ha hidx hold

/-- The heap used by the C8 witness: slot 0 of a 1-slot array holds element 0. -/
def c8World : World :=
  runTrace [.newElem [("v", Value.int 1)], .newArray [("v", "int")] 1, .setSlot 0 0 (some 0)]

/-- The array state inside `c8World`. -/
def c8Arr : ArrState := ⟨[("v", "int")], 1, [], [some 0], [("v", [⟨.ptaInt, [.int 1]⟩])]⟩

/-- Witness for C8's failing input: a 1-slot array whose slot 0 holds an
element; assigning `None` at slot 0 raises instead of vacating, and the slot
still holds the element afterwards. -/
theorem setSlot_none_raises_witness :
    (c8World.arrays.get? 0 = some c8Arr ∧
     c8Arr.assignedObjects = [some 0]) ∧
    arrSetItem c8World 0 0 none = (c8World, some .noneAttr) := by
  refine ⟨⟨by decide, by decide⟩, ?_⟩
  exact @setSlot_none_raises c8World 0 0 c8Arr (some 0) (by decide) (by decide) (by decide)

theorem writeAttrs_missing {w : World} {aid : ArrId} {i : Nat} {eid : ElemId}
    {e : ElemState} {attrs : List (String × String)}
    (hnd : (attrs.map Prod.fst).Nodup)
    (he : w.elems.get? eid = some e)
    (hpres : ∀ p ∈ attrs, ∀ v, alookup p.1 e.fields = some v → fieldWritable p.2 v = true)
    (hwf : WfSlot w aid i attrs)
    (hmiss : ∃ p, p ∈ attrs ∧ alookup p.1 e.fields = none) :
    (writeAttrs w aid i eid attrs).2 = some .attributeMissing := by
  induction attrs generalizing w with
  | nil => obtain ⟨p, hp, _⟩ := hmiss; simp at hp
  | cons q rest ih =>
    obtain ⟨nm, ty⟩ := q
    have hnd' : (nm :: rest.map Prod.fst).Nodup := by simpa using hnd
    have hnm_rest : nm ∉ rest.map Prod.fst := (List.nodup_cons.1 hnd').1
    have hnd_rest : (rest.map Prod.fst).Nodup := (List.nodup_cons.1 hnd').2
    rcases Option.eq_none_or_eq_some (alookup nm e.fields) with hfn | ⟨v, hfn⟩
    · rw [writeAttrs_cons_err (writeOne_eq_missing he hfn)]
    · have hwrit := hpres (nm, ty) (List.mem_cons_self _ _) v hfn
      obtain ⟨d, hd, hlen⟩ := hwf (nm, ty) (List.mem_cons_self _ _)
      obtain ⟨hsnd1, _, hother1⟩ := writeOne_chr he hfn hwrit hd hlen
      cases hw : writeOne w aid i eid nm ty with
      | mk w₁ err =>
        cases err with
        | some er => rw [hw] at hsnd1; simp at hsnd1
        | none =>
          rw [hw] at hother1
          have hfre := writeOne_frame w aid i eid nm ty
          rw [hw] at hfre
          have he₁ : w₁.elems.get? eid = some e := by rw [hfre.1]; exact he
          have hwf₁ : WfSlot w₁ aid i rest := by
            intro q hq
            obtain ⟨dq, hdq, hlq⟩ := hwf q (List.mem_cons_of_mem _ hq)
            have hq_ne : q.1 ≠ nm := by
              intro hqe
              exact hnm_rest (hqe ▸ List.mem_map.2 ⟨q, hq, rfl⟩)
            exact ⟨dq, by rw [hother1 q.1 i (Or.inl hq_ne)]; exact hdq, hlq⟩
          have hmiss₁ : ∃ p, p ∈ rest ∧ alookup p.1 e.fields = none := by
            obtain ⟨p, hp, hpn⟩ := hmiss
            rcases List.mem_cons.1 hp with hp1 | hp2
            · exfalso
              rw [hp1] at hpn
              rw [hpn] at hfn
              simp at hfn
            · exact ⟨p, hp2, hpn⟩
          rw [writeAttrs_cons_ok hw]
          exact ih hnd_rest he₁
            (fun p hp v' hv' => hpres p (List.mem_cons_of_mem _ hp) v' hv') hwf₁ hmiss₁

theorem setSlot_missing_core {w w₁ : World} {aid : ArrId} {i : Nat} {eid : ElemId}
    {a : ArrState} {e : ElemState}
    (ha : w.arrays.get? aid = some a)
    (hwf : wfArr a = true)
    (hnd : (a.attributes.map Prod.fst).Nodup)
    (hi : i < a.size)
    (he : w.elems.get? eid = some e)
    (hpres : ∀ p ∈ a.attributes, ∀ v, alookup p.1 e.fields = some v →
      fieldWritable p.2 v = true)
    (hmiss : ∃ p, p ∈ a.attributes ∧ alookup p.1 e.fields = none)
    (harr₁ : w₁.arrays = w.arrays)
    (hfields₁ : ∀ k, (w₁.elems.get? k).map ElemState.fields
      = (w.elems.get? k).map ElemState.fields) :
    (writeAttrs (setAssignedW (addListRefW w₁ eid aid) aid i (some eid))
        aid i eid a.attributes).2 = some .attributeMissing ∧
    (∃ a', (writeAttrs (setAssignedW (addListRefW w₁ eid aid) aid i (some eid))
        aid i eid a.attributes).1.arrays.get? aid = some a' ∧
      a'.assignedObjects = a.assignedObjects.set i (some eid)) ∧
    (∃ e', (writeAttrs (setAssignedW (addListRefW w₁ eid aid) aid i (some eid))
        aid i eid a.attributes).1.elems.get? eid = some e' ∧
      e'.fields = e.fields ∧ aid ∈ e'.referencedLists) := by
  obtain ⟨e₁, he₁, hef₁⟩ : ∃ e₁, w₁.elems.get? eid = some e₁ ∧ e₁.fields = e.fields := by
    have h := hfields₁ eid
    rw [he] at h
    obtain ⟨e₁, h1, h2⟩ := Option.map_eq_some'.1 h
    exact ⟨e₁, h1, h2⟩
  obtain ⟨e₂, he₂, hef₂, hmem₂⟩ := addListRef_self aid he₁
  have harr₂ : (addListRefW w₁ eid aid).arrays = w.arrays := by
    rw [arrays_addListRef, harr₁]
  have ha₂ : (addListRefW w₁ eid aid).arrays.get? aid = some a := by
    rw [harr₂]; exact ha
  have hw₃ : setAssignedW (addListRefW w₁ eid aid) aid i (some eid)
      = setArrState (addListRefW w₁ eid aid) aid
        { a with assignedObjects := a.assignedObjects.set i (some eid) } :=
    setAssigned_eq ha₂
  have hlt : aid < (addListRefW w₁ eid aid).arrays.length := (List.get?_eq_some.1 ha₂).1
  have ha₃ : (setAssignedW (addListRefW w₁ eid aid) aid i (some eid)).arrays.get? aid
      = some { a with assignedObjects := a.assignedObjects.set i (some eid) } := by
    rw [hw₃]
    unfold setArrState
    exact get?_set_self _ hlt
  have he₃ : (setAssignedW (addListRefW w₁ eid aid) aid i (some eid)).elems.get? eid
      = some e₂ := by
    rw [elems_setAssigned]
    exact he₂
  have hbuf₃ : ∀ n j,
      bufDataAt (setAssignedW (addListRefW w₁ eid aid) aid i (some eid)) aid n j
        = bufDataAt w aid n j := by
    intro n j
    rw [bufDataAt_setAssigned]
    exact bufDataAt_eq_of_arrays_eq harr₂ aid n j
  have hwfslot : WfSlot (setAssignedW (addListRefW w₁ eid aid) aid i (some eid))
      aid i a.attributes :=
    wfSlot_transport (fun n j => hbuf₃ n j) (wfSlot_of_wfArr ha hwf hi)
  have hpres₃ : ∀ p ∈ a.attributes, ∀ v, alookup p.1 e₂.fields = some v →
      fieldWritable p.2 v = true := by
    rw [hef₂, hef₁]
    exact hpres
  have hmiss₃ : ∃ p, p ∈ a.attributes ∧ alookup p.1 e₂.fields = none := by
    rw [hef₂, hef₁]
    exact hmiss
  have hsnd := writeAttrs_missing hnd he₃ hpres₃ hwfslot hmiss₃
  have hfr := writeAttrs_frame (setAssignedW (addListRefW w₁ eid aid) aid i (some eid))
    aid i eid a.attributes
  refine ⟨hsnd, ?_, ?_⟩
  · have hskel := hfr.2.2.1
    rw [ha₃] at hskel
    simp only [Option.map_some'] at hskel
    obtain ⟨a', ha', hs'⟩ := Option.map_eq_some'.1 hskel
    refine ⟨a', ha', ?_⟩
    have := congrArg (fun t => t.2.2.1) hs'
    exact this
  · refine ⟨e₂, ?_, hef₂.trans hef₁, hmem₂⟩
    rw [hfr.1]
    exact he₃

/-- C7: for every valid index and every element that lacks at least one
attribute declared in the schema (but whose present fields fit their declared
types), `setSlot(index, element)` fails with the missing-attribute error —
raised when the missing field is read — and by that point the reference
bookkeeping has already run: the slot stores the new element and the array is
registered in the element's back-reference set. -/
theorem setSlot_missing_attr {w : World} {aid : ArrId} {i : Nat} {eid : ElemId}
    {a : ArrState} {e : ElemState}
    (ha : w.arrays.get? aid = some a)
    (hwf : wfArr a = true)
    (hnd : (a.attributes.map Prod.fst).Nodup)
    (hi : i < a.size)
    (he : w.elems.get? eid = some e)
    (hpres : ∀ p ∈ a.attributes, ∀ v, alookup p.1 e.fields = some v →
      fieldWritable p.2 v = true)
    (hmiss : ∃ p, p ∈ a.attributes ∧ alookup p.1 e.fields = none) :
    (arrSetItem w aid (i : Int) (some eid)).2 = some .attributeMissing ∧
    (∃ a', (arrSetItem w aid (i : Int) (some eid)).1.arrays.get? aid = some a' ∧
      a'.assignedObjects = a.assignedObjects.set i (some eid)) ∧
    (∃ e', (arrSetItem w aid (i : Int) (some eid)).1.elems.get? eid = some e' ∧
      e'.fields = e.fields ∧ aid ∈ e'.referencedLists) := by
  have hidx : ¬((i : Int) < 0 ∨ (a.size : Int) ≤ (i : Int)) := by
    push_neg
    constructor <;> omega
  have htn : ((i : Int)).toNat = i := Int.toNat_natCast i
  have hil : i < a.assignedObjects.length := by
    rw [(wfArr_iff.1 hwf).1]; exact hi
  obtain ⟨old, hold⟩ : ∃ old, a.assignedObjects.get? i = some old :=
    ⟨_, List.get?_eq_some.2 ⟨hil, rfl⟩⟩
  have hold' : a.assignedObjects.get? ((i : Int)).toNat = some old := by
    rw [htn]; exact hold
  cases old with
  | none =>
    rw [arrSetItem_eq_some_nold ha hidx hold', htn]
    exact setSlot_missing_core ha hwf hnd hi he hpres hmiss rfl (fun k => rfl)
  | some old =>
    by_cases hov : old = eid
    · subst hov
      rw [arrSetItem_eq_some_same ha hidx hold', htn]
      exact setSlot_missing_core ha hwf hnd hi he hpres hmiss rfl (fun k => rfl)
    · rw [arrSetItem_eq_some_diff ha hidx hold' hov, htn]
      exact setSlot_missing_core ha hwf hnd hi he hpres hmiss
        (arrays_removeListRef w old aid) (fields_removeListRef w old aid)

/-- Witness for C7: an element exposing only `"w"` assigned into a schema
declaring `"v"` raises the missing-attribute error, with the slot and the
back-reference set already updated. -/
theorem setSlot_missing_attr_witness :
    ((runTrace [.newElem [("w", Value.int 1)], .newArray [("v", "int")] 1]).arrays.get? 0
       = some (mkStructArray [("v", "int")] 1) ∧
     (0 : Nat) < (mkStructArray [("v", "int")] 1).size) ∧
    (arrSetItem (runTrace [.newElem [("w", Value.int 1)], .newArray [("v", "int")] 1])
       0 (0 : Nat) (some 0)).2 = some .attributeMissing := by
  refine ⟨⟨by decide, by decide⟩, ?_⟩
  exact (@setSlot_missing_attr
    (runTrace [.newElem [("w", Value.int 1)], .newArray [("v", "int")] 1]) 0 0 0
    (mkStructArray [("v", "int")] 1) ⟨[], [("w", Value.int 1)]⟩
    (by decide) (by decide) (by decide) (by decide) (by decide)
    (by decide)
    ⟨("v", "int"), by decide, by decide⟩).1

/-- C4 counterexample: constructing a StructArray over a schema with the
unrecognized type tag `"bogus"` does NOT fail — the `newArray` step reports no
error and the constructor silently allocates the default `PTAFloat` buffer of
length 1 for the unknown tag, contradicting the claim that an unrecognized tag
raises a configuration error with no fallback. -/
theorem structArray_unknown_tag_counterexample :
    (step ⟨[], []⟩ (.newArray [("x", "bogus")] 1)).2 = none ∧
    (mkStructArray [("x", "bogus")] 1).ptaWrappers
      = [("x", [⟨.ptaFloat, [.float 0]⟩])] := by
  constructor
  · rfl
  · decide

/-- C4 amended: for every schema attribute whose type tag is outside the closed
set `int`, `float`, `vec2`, `vec3`, `mat4`, `array<int>(6)`, construction
succeeds (no error is raised) and silently falls back to the default: a
`PTAFloat` buffer of length 1 for every slot. -/
theorem structArray_unknown_tag_fallback {w : World} {attrs : List (String × String)}
    {size : Nat} {n ty : String}
    (hnd : (attrs.map Prod.fst).Nodup)
    (hmem : (n, ty) ∈ attrs)
    (h1 : ty ≠ "int") (h2 : ty ≠ "float") (h3 : ty ≠ "vec2") (h4 : ty ≠ "vec3")
    (h5 : ty ≠ "mat4") (h6 : ty ≠ "array<int>(6)") :
    (step w (.newArray attrs size)).2 = none ∧
    alookup n (mkStructArray attrs size).ptaWrappers
      = some (List.replicate size ⟨.ptaFloat, [.float 0]⟩) := by
  constructor
  · rfl
  · have hl := alookup_map_of_nodup
      (fun q => List.replicate size (emptyArray (mkBufferFor q.2).1 (mkBufferFor q.2).2))
      hnd hmem
    have hbf : mkBufferFor ty = (.ptaFloat, 1) := by
      unfold mkBufferFor
      rw [if_neg h5, if_neg h1, if_neg h6, if_neg h2, if_neg h3, if_neg h4]
    rw [show alookup n (mkStructArray attrs size).ptaWrappers
        = alookup ((n, ty) : String × String).1
            (attrs.map fun q =>
              (q.1, List.replicate size (emptyArray (mkBufferFor q.2).1 (mkBufferFor q.2).2)))
        from rfl, hl]
    simp only [hbf]
    rfl

/-- Witness for the amended C4 at the concrete unknown tag `"bogus"`. -/
theorem structArray_unknown_tag_fallback_witness :
    (("x", "bogus") ∈ [(("x" : String), ("bogus" : String))]) ∧
    ((step ⟨[], []⟩ (.newArray [("x", "bogus")] 1)).2 = none ∧
     alookup "x" (mkStructArray [("x", "bogus")] 1).ptaWrappers
       = some (List.replicate 1 ⟨.ptaFloat, [.float 0]⟩)) := by
  refine ⟨by decide, ?_⟩
  exact @structArray_unknown_tag_fallback ⟨[], []⟩ [("x", "bogus")] 1 "x" "bogus"
    (by decide) (by decide) (by decide) (by decide) (by decide) (by decide) (by decide)
    (by decide)

/-! ### Claim C6: the `bindTo` registration table -/

/-- The backing buffer of attribute `n` at slot `i` (with a junk default for
malformed arrays, never reached under well-formedness). -/
def bufAtD (a : ArrState) (n : String) (i : Nat) : Buffer :=
  ((alookup n a.ptaWrappers).getD []).getD i ⟨.ptaFloat, []⟩

/-- Specification-side registration table, following the spec's words: exactly
one entry per (slot index, attribute) pair, under the composed name
`baseName[index].attributeName` — decimal index, zero-based, no leading zeros
(`Nat.repr`) — whose value is that slot's backing buffer for that attribute. -/
def specRegistrations (a : ArrState) (base : String) : List (String × Buffer) :=
  (List.range a.size).bind fun index =>
    a.attributes.map fun p =>
      (base ++ "[" ++ Nat.repr index ++ "]" ++ "." ++ p.1, bufAtD a p.1 index)

theorem mkInputName_eq (base : String) (index : Nat) (n : String) :
    mkInputName base index n = base ++ "[" ++ Nat.repr index ++ "]" ++ "." ++ n := by
  unfold mkInputName
  rw [String.append_empty]

theorem bindRegsAttrs_ok {a : ArrState} {base : String} {index : Nat}
    {attrs : List (String × String)}
    (hwf : ∀ p ∈ attrs, ∃ bufs, alookup p.1 a.ptaWrappers = some bufs ∧ index < bufs.length) :
    bindRegsAttrs a base index attrs
      = some (attrs.map fun p => (mkInputName base index p.1, bufAtD a p.1 index)) := by
  induction attrs with
  | nil => rfl
  | cons p rest ih =>
    obtain ⟨bufs, hl, hlt⟩ := hwf p (List.mem_cons_self _ _)
    obtain ⟨b, hb⟩ : ∃ b, bufs.get? index = some b := ⟨_, List.get?_eq_some.2 ⟨hlt, rfl⟩⟩
    obtain ⟨nm, ty⟩ := p
    have hbd : bufAtD a nm index = b := by
      unfold bufAtD
      rw [hl]
      simp only [Option.getD_some]
      rw [List.getD_eq_get?, hb]
      rfl
    simp only [bindRegsAttrs, hl, hb, ih (fun q hq => hwf q (List.mem_cons_of_mem _ hq)),
      Option.map_some', List.map_cons]
    rw [hbd]

theorem bindRegs_ok {a : ArrState} {base : String} (ks : List Nat)
    (hwf : ∀ p ∈ a.attributes, ∃ bufs, alookup p.1 a.ptaWrappers = some bufs ∧
      ∀ index ∈ ks, index < bufs.length) :
    bindRegs a base ks
      = some (ks.bind fun index =>
          a.attributes.map fun p => (mkInputName base index p.1, bufAtD a p.1 index)) := by
  induction ks with
  | nil => rfl
  | cons k rest ih =>
    have hk : ∀ p ∈ a.attributes, ∃ bufs, alookup p.1 a.ptaWrappers = some bufs ∧
        k < bufs.length := by
      intro p hp
      obtain ⟨bufs, hl, hall⟩ := hwf p hp
      exact ⟨bufs, hl, hall k (List.mem_cons_self _ _)⟩
    have hrest : ∀ p ∈ a.attributes, ∃ bufs, alookup p.1 a.ptaWrappers = some bufs ∧
        ∀ index ∈ rest, index < bufs.length := by
      intro p hp
      obtain ⟨bufs, hl, hall⟩ := hwf p hp
      exact ⟨bufs, hl, fun index hidx => hall index (List.mem_cons_of_mem _ hidx)⟩
    simp only [bindRegs, bindRegsAttrs_ok hk, ih hrest, Option.map_some', List.cons_bind]

/-- C6: for every well-formed StructArray with attribute set `S` and size `n`,
`bindTo` issues exactly one registration per (slot index, attribute) pair, in
slot-major order, under the composed name
`baseName ++ "[" ++ <decimal index, zero-based, no leading zeros> ++ "]" ++ "." ++ attributeName`,
with the registered value being that slot's backing buffer for that attribute
(`specRegistrations` spells out that table). -/
theorem bindTo_registrations {a : ArrState} {base : String} (hwf : wfArr a = true) :
    bindRegistrations a base = some (specRegistrations a base) := by
  unfold bindRegistrations specRegistrations
  rw [bindRegs_ok (List.range a.size) ?_]
  · congr 1
    refine List.bind_congr ?_
    intro index _
    refine List.map_congr_left ?_
    intro p _
    rw [mkInputName_eq]
  · intro p hp
    obtain ⟨bufs, hl, hlen, _⟩ := (wfArr_iff.1 hwf).2 p hp
    exact ⟨bufs, hl, fun index hidx => by rw [hlen]; exact List.mem_range.1 hidx⟩

/-- Witness for C6: the spec's own scenario — schema `{"color": vec3}`, size 3,
base name `"Lights"` — yields exactly the three registrations
`Lights[0].color`, `Lights[1].color`, `Lights[2].color`, valued at the three
per-slot buffers. -/
theorem bindTo_registrations_witness :
    wfArr (mkStructArray [("color", "vec3")] 3) = true ∧
    bindRegistrations (mkStructArray [("color", "vec3")] 3) "Lights"
      = some (specRegistrations (mkStructArray [("color", "vec3")] 3) "Lights") ∧
    (specRegistrations (mkStructArray [("color", "vec3")] 3) "Lights").map Prod.fst
      = ["Lights[0].color", "Lights[1].color", "Lights[2].color"] := by
  refine ⟨by decide, bindTo_registrations (by decide), by decide⟩

/-! ### Claim C9: idempotence of `setSlot` -/

theorem setAssigned_noop {w : World} {aid : ArrId} {i : Nat} {a : ArrState}
    {v : Option ElemId} (ha : w.arrays.get? aid = some a)
    (hv : a.assignedObjects.get? i = some v) :
    setAssignedW w aid i v = w := by
  rw [setAssigned_eq ha]
  unfold setArrState
  have h1 : a.assignedObjects.set i v = a.assignedObjects := set_get?_eq_self hv
  rw [h1]
  have h2 : ({ a with assignedObjects := a.assignedObjects } : ArrState) = a := rfl
  rw [h2, set_get?_eq_self ha]

/-- C9: for every valid index and schema-satisfying element, running
`setSlot(index, element)` a second time returns exactly the state produced by
the first run, unchanged — slot table, every backing buffer, and every
element's back-reference set included — and again succeeds. -/
theorem setSlot_idempotent {w : World} {aid : ArrId} {i : Nat} {eid : ElemId}
    {a : ArrState} {e : ElemState}
    (ha : w.arrays.get? aid = some a)
    (hwf : wfArr a = true)
    (hnd : (a.attributes.map Prod.fst).Nodup)
    (hi : i < a.size)
    (he : w.elems.get? eid = some e)
    (hsat : elemSatisfies a.attributes e.fields = true) :
    arrSetItem (arrSetItem w aid (i : Int) (some eid)).1 aid (i : Int) (some eid)
      = arrSetItem w aid (i : Int) (some eid) := by
  obtain ⟨hsnd, hcont, _, ⟨a', ha', hskel', _⟩, _, ⟨e', he', hef', hmem'⟩⟩ :=
    arrSetItem_chr ha hwf hnd hi he hsat
  cases hr : arrSetItem w aid (i : Int) (some eid) with
  | mk w' err =>
    rw [hr] at hsnd hcont ha' he'
    cases err with
    | some er => simp at hsnd
    | none =>
      have hattr : a'.attributes = a.attributes := congrArg (fun t => t.1) hskel'
      have hsize : a'.size = a.size := congrArg (fun t => t.2.1) hskel'
      have hassigned : a'.assignedObjects = a.assignedObjects.set i (some eid) :=
        congrArg (fun t => t.2.2.1) hskel'
      have hidx' : ¬((i : Int) < 0 ∨ (a'.size : Int) ≤ (i : Int)) := by
        rw [hsize]
        push_neg
        constructor <;> omega
      have htn : ((i : Int)).toNat = i := Int.toNat_natCast i
      have hil : i < a.assignedObjects.length := by
        rw [(wfArr_iff.1 hwf).1]; exact hi
      have hold' : a'.assignedObjects.get? ((i : Int)).toNat = some (some eid) := by
        rw [htn, hassigned]
        exact get?_set_self _ hil
      rw [arrSetItem_eq_some_same ha' hidx' hold', htn]
      rw [addListRef_eq_mem he' hmem']
      rw [setAssigned_noop ha' (by rw [← htn]; exact hold')]
      rw [hattr]
      refine writeAttrs_fix he' ?_
      intro p hp
      obtain ⟨v, s, hv, hs, hb⟩ := hcont p hp
      exact ⟨v, s, by rw [hef']; exact hv, hs, hb⟩

/-- Witness for C9 at a concrete input: a one-attribute element written twice
into slot 0 of a 2-slot array. -/
theorem setSlot_idempotent_witness :
    ((runTrace [.newElem [("v", Value.int 5)], .newArray [("v", "int")] 2]).arrays.get? 0
       = some (mkStructArray [("v", "int")] 2) ∧
     (0 : Nat) < (mkStructArray [("v", "int")] 2).size) ∧
    arrSetItem (arrSetItem (runTrace [.newElem [("v", Value.int 5)],
        .newArray [("v", "int")] 2]) 0 (0 : Nat) (some 0)).1 0 (0 : Nat) (some 0)
      = arrSetItem (runTrace [.newElem [("v", Value.int 5)],
          .newArray [("v", "int")] 2]) 0 (0 : Nat) (some 0) := by
  refine ⟨⟨by decide, by decide⟩, ?_⟩
  exact @setSlot_idempotent
    (runTrace [.newElem [("v", Value.int 5)], .newArray [("v", "int")] 2]) 0 0 0
    (mkStructArray [("v", "int")] 2) ⟨[], [("v", Value.int 5)]⟩
    (by decide) (by decide) (by decide) (by decide) (by decide) (by decide)

/-! ### Claim C10: buffer identity and shape stability -/

theorem arrSetItem_eq_noarr {w : World} {aid : ArrId} {index : Int} {value : Option ElemId}
    (ha : w.arrays.get? aid = none) :
    arrSetItem w aid index value = (w, some .invalidOp) := by
  simp only [arrSetItem, ha]

theorem setAssigned_shapes (w : World) (aid : ArrId) (i : Nat) (v : Option ElemId) (k : ArrId) :
    ((setAssignedW w aid i v).arrays.get? k).map wrapShapes
      = (w.arrays.get? k).map wrapShapes := by
  rcases Option.eq_none_or_eq_some (w.arrays.get? aid) with ha | ⟨a, ha⟩
  · simp only [setAssignedW, ha]
  rw [setAssigned_eq ha]
  unfold setArrState
  by_cases hk : k = aid
  · subst hk
    have hlt : k < w.arrays.length := (List.get?_eq_some.1 ha).1
    rw [get?_set_self _ hlt, ha]
    rfl
  · rw [List.get?_set_ne _ _ (fun hh => hk hh.symm)]

theorem arrSetItem_shapes (w : World) (aid : ArrId) (index : Int) (value : Option ElemId)
    (k : ArrId) :
    ((arrSetItem w aid index value).1.arrays.get? k).map wrapShapes
      = (w.arrays.get? k).map wrapShapes := by
  rcases Option.eq_none_or_eq_some (w.arrays.get? aid) with ha | ⟨a, ha⟩
  · rw [arrSetItem_eq_noarr ha]
  by_cases hidx : index < 0 ∨ (a.size : Int) ≤ index
  · rw [arrSetItem_eq_oob ha hidx]
  rcases Option.eq_none_or_eq_some (a.assignedObjects.get? index.toNat) with hold | ⟨old, hold⟩
  · rw [arrSetItem_eq_noslot ha hidx hold]
  have hbook : ∀ (w₁ : World), w₁.arrays = w.arrays →
      (((writeAttrs (setAssignedW (addListRefW w₁ value.iget aid) aid index.toNat
          value) aid index.toNat value.iget a.attributes).1.arrays.get? k).map wrapShapes
        = (w.arrays.get? k).map wrapShapes) := by
    intro w₁ harr₁
    have hadd : (addListRefW w₁ value.iget aid).arrays = w.arrays := by
      rw [arrays_addListRef, harr₁]
    have hset : ∀ k', ((setAssignedW (addListRefW w₁ value.iget aid) aid index.toNat
        value).arrays.get? k').map wrapShapes = (w.arrays.get? k').map wrapShapes := by
      intro k'
      rw [setAssigned_shapes]
      unfold bufDataAt at *
      rw [hadd]
    have hfr := writeAttrs_frame (setAssignedW (addListRefW w₁ value.iget aid) aid
      index.toNat value) aid index.toNat value.iget a.attributes
    by_cases hk : k = aid
    · subst hk
      rw [hfr.2.2.2, hset k]
    · rw [hfr.2.1 k hk, hset k]
  cases value with
  | none => rw [arrSetItem_eq_none_val ha hidx hold]
  | some vid =>
    cases old with
    | none =>
      rw [arrSetItem_eq_some_nold ha hidx hold]
      exact hbook w rfl
    | some old =>
      by_cases hov : old = vid
      · subst hov
        rw [arrSetItem_eq_some_same ha hidx hold]
        exact hbook w rfl
      · rw [arrSetItem_eq_some_diff ha hidx hold hov]
        exact hbook (removeListRefW w old aid) (arrays_removeListRef w old aid)

theorem objectChanged_shapes (w : World) (aid : ArrId) (eid : ElemId) (k : ArrId) :
    ((objectChangedW w aid eid).1.arrays.get? k).map wrapShapes
      = (w.arrays.get? k).map wrapShapes := by
  rcases Option.eq_none_or_eq_some (w.arrays.get? aid) with ha | ⟨a, ha⟩
  · simp only [objectChangedW, ha]
  simp only [objectChangedW, ha]
  by_cases hm : (some eid) ∈ a.assignedObjects
  · rw [if_pos hm]
    exact arrSetItem_shapes w aid _ (some eid) k
  · rw [if_neg hm]

theorem notifyFold_shapes (w : World) (eid : ElemId) (refs : List ArrId) (k : ArrId) :
    ((notifyFold w eid refs).1.arrays.get? k).map wrapShapes
      = (w.arrays.get? k).map wrapShapes := by
  induction refs generalizing w with
  | nil => rfl
  | cons aid rest ih =>
    have hstep := objectChanged_shapes w aid eid k
    cases ho : objectChangedW w aid eid with
    | mk w' err =>
      rw [ho] at hstep
      cases err with
      | none =>
        have : notifyFold w eid (aid :: rest) = notifyFold w' eid rest := by
          simp only [notifyFold, ho]
        rw [this, ih w', hstep]
      | some er =>
        have : notifyFold w eid (aid :: rest) = (w', some er) := by
          simp only [notifyFold, ho]
        rw [this]
        exact hstep

theorem bindToW_shapes (w : World) (aid : ArrId) (parent : Nat) (u : String) (k : ArrId) :
    ((bindToW w aid parent u).1.arrays.get? k).map wrapShapes
      = (w.arrays.get? k).map wrapShapes := by
  unfold bindToW
  rcases Option.eq_none_or_eq_some (w.arrays.get? aid) with ha | ⟨a, ha⟩
  · rw [ha]
  rw [ha]
  have hset : ∀ r : Option (List (String × Buffer)),
      (((match r with
        | none => (setArrState w aid { a with parents := aset parent u a.parents },
            some PyErr.keyError)
        | some _ => (setArrState w aid { a with parents := aset parent u a.parents },
            none) : World × Option PyErr)).1.arrays.get? k).map wrapShapes
      = (w.arrays.get? k).map wrapShapes := by
    intro r
    have hgoal : ((setArrState w aid
        { a with parents := aset parent u a.parents }).arrays.get? k).map wrapShapes
        = (w.arrays.get? k).map wrapShapes := by
      unfold setArrState
      by_cases hk : k = aid
      · subst hk
        have hlt : k < w.arrays.length := (List.get?_eq_some.1 ha).1
        rw [get?_set_self _ hlt, ha]
        rfl
      · rw [List.get?_set_ne _ _ (fun hh => hk hh.symm)]
    cases r <;> exact hgoal
  exact hset _

theorem step_shapes (w : World) (op : Op) (k : ArrId) (hk : k < w.arrays.length) :
    (((step w op).1.arrays.get? k).map wrapShapes)
      = (w.arrays.get? k).map wrapShapes := by
  cases op with
  | newElem fields => rfl
  | setField eid name v =>
    rcases Option.eq_none_or_eq_some (w.elems.get? eid) with he | ⟨e, he⟩
    · simp only [step, he]
    · simp only [step, he]
      rfl
  | newArray attrs size =>
    show (((w.arrays ++ [mkStructArray attrs size]).get? k).map wrapShapes) = _
    rw [List.get?_append hk]
  | setSlot aid index value => exact arrSetItem_shapes w aid index value k
  | notify eid =>
    rcases Option.eq_none_or_eq_some (w.elems.get? eid) with he | ⟨e, he⟩
    · simp only [step, onPropertyChangedW, he]
    · simp only [step, onPropertyChangedW, he]
      exact notifyFold_shapes w eid e.referencedLists k
  | bind aid parent u => exact bindToW_shapes w aid parent u k

/-- C10: (construction) `StructArray(elementType, size)` creates, for every
declared attribute, one buffer per slot, typed by the attribute's type tag and
sized 6 for `array<int>(6)` and 1 for every other tag; (stability) every
subsequent operation — `setSlot`, `objectChanged`/`notifyChanged`, `bindTo`,
and element/array creation — leaves the set of buffers of every existing array
and each buffer's type and length exactly as constructed: only buffer contents
ever change (`wrapShapes` is the type-and-length view of the buffer table). -/
theorem buffer_identity_stable :
    (∀ (attrs : List (String × String)) (size : Nat) (p : String × String),
      (attrs.map Prod.fst).Nodup → p ∈ attrs →
      ∃ bufs, alookup p.1 (mkStructArray attrs size).ptaWrappers = some bufs ∧
        bufs.length = size ∧
        ∀ b ∈ bufs, b.btype = (mkBufferFor p.2).1 ∧
          b.data.length = (if p.2 = "array<int>(6)" then 6 else 1)) ∧
    (∀ (w : World) (op : Op) (k : ArrId), k < w.arrays.length →
      (((step w op).1.arrays.get? k).map wrapShapes)
        = (w.arrays.get? k).map wrapShapes) := by
  constructor
  · intro attrs size p hnd hp
    obtain ⟨bufs, hl, hlen, hsh⟩ := (wfArr_iff.1 (wfArr_mkStructArray attrs size hnd)).2 p hp
    refine ⟨bufs, hl, by rw [hlen]; rfl, ?_⟩
    intro b hb
    have h := hsh b hb
    unfold bufShape at h
    constructor
    · exact congrArg Prod.fst h
    · have h2 := congrArg Prod.snd h
      simp only at h2
      rw [h2]
      by_cases h6 : p.2 = "array<int>(6)"
      · rw [if_pos h6, h6]
        rfl
      · rw [if_neg h6]
        exact mkBufferFor_snd_eq_one h6
  · exact step_shapes

/-- Witness for C10: the construction clause at the C2 schema, and the
stability clause at a concrete `setSlot` step on a freshly built heap. -/
theorem buffer_identity_stable_witness :
    ((("d", "array<int>(6)") ∈ c2Attrs) ∧
     (0 : ArrId) < (runTrace [.newElem c2Fields, .newArray c2Attrs 2]).arrays.length) ∧
    (∃ bufs, alookup "d" (mkStructArray c2Attrs 2).ptaWrappers = some bufs ∧
      bufs.length = 2 ∧
      ∀ b ∈ bufs, b.btype = (mkBufferFor "array<int>(6)").1 ∧
        b.data.length = (if ("array<int>(6)" : String) = "array<int>(6)" then 6 else 1)) ∧
    (((step (runTrace [.newElem c2Fields, .newArray c2Attrs 2])
        (.setSlot 0 0 (some 0))).1.arrays.get? 0).map wrapShapes)
      = ((runTrace [.newElem c2Fields, .newArray c2Attrs 2]).arrays.get? 0).map wrapShapes := by
  refine ⟨⟨by decide, by decide⟩, ?_, ?_⟩
  · exact buffer_identity_stable.1 c2Attrs 2 ("d", "array<int>(6)") (by decide) (by decide)
  · exact buffer_identity_stable.2 (runTrace [.newElem c2Fields, .newArray c2Attrs 2])
      (.setSlot 0 0 (some 0)) 0 (by decide)

/-! ### Claim C1: change notification refreshes only the first slot -/

theorem indexOf_eq_of_first {α : Type} [BEq α] [LawfulBEq α] {l : List α} {x : α} {i : Nat}
    (hget : l.get? i = some x) (hfirst : ∀ k, k < i → l.get? k ≠ some x) :
    l.indexOf x = i := by
  induction l generalizing i with
  | nil => simp [List.get?] at hget
  | cons a rest ih =>
    cases i with
    | zero =>
      have hax : a = x := by simpa [List.get?] using hget
      simp [List.indexOf_cons, hax]
    | succ j =>
      have hget' : rest.get? j = some x := hget
      have hne : a ≠ x := by
        intro hax
        exact hfirst 0 (Nat.succ_pos j) (by simp [List.get?, hax])
      have hfirst' : ∀ k, k < j → rest.get? k ≠ some x := by
        intro k hk
        exact hfirst (k + 1) (Nat.succ_lt_succ hk)
      have hbeq : (a == x) = false := beq_eq_false_iff_ne.2 hne
      simp [List.indexOf_cons, hbeq, ih hget' hfirst']

/-- C1 counterexample: element 0 (field `v = 5`) sits at slots 0 and 1 of the
same array; after mutating `v` to 7 and calling `notifyChanged`, slot 0's
buffer holds 7 but slot 1's buffer still holds the stale 5 — the handler
(`objectChanged`, line 168) re-snapshots only `assignedObjects.index(obj)`,
the first slot, refuting the claim that every slot holding the element is
refreshed. -/
theorem notify_two_slots_counterexample :
    ((runTrace [.newElem [("v", Value.int 5)], .newArray [("v", "int")] 2,
        .setSlot 0 0 (some 0), .setSlot 0 1 (some 0), .setField 0 "v" (Value.int 7),
        .notify 0]).arrays.get? 0).map ArrState.assignedObjects
      = some [some 0, some 0] ∧
    ((runTrace [.newElem [("v", Value.int 5)], .newArray [("v", "int")] 2,
        .setSlot 0 0 (some 0), .setSlot 0 1 (some 0), .setField 0 "v" (Value.int 7),
        .notify 0]).elems.get? 0).map ElemState.fields
      = some [("v", Value.int 7)] ∧
    bufDataAt (runTrace [.newElem [("v", Value.int 5)], .newArray [("v", "int")] 2,
        .setSlot 0 0 (some 0), .setSlot 0 1 (some 0), .setField 0 "v" (Value.int 7),
        .notify 0]) 0 "v" 0 = some [Value.int 7] ∧
    bufDataAt (runTrace [.newElem [("v", Value.int 5)], .newArray [("v", "int")] 2,
        .setSlot 0 0 (some 0), .setSlot 0 1 (some 0), .setField 0 "v" (Value.int 7),
        .notify 0]) 0 "v" 1 = some [Value.int 5] := by
  refine ⟨by decide, by decide, by decide, by decide⟩

/-- C1 amended: when an element held at two slots `i < j` (more precisely, `i`
the first slot holding it and `j` any other) of its single owning array mutates
a field and calls `notifyChanged`, the handler re-snapshots ONLY slot `i`: slot
`i`'s buffers hold the new per-attribute snapshots, while slot `j`'s buffers
are left exactly as they were (stale). -/
theorem notify_refreshes_first_slot_only {w : World} {aid : ArrId} {eid : ElemId}
    {a : ArrState} {e : ElemState} {i j : Nat}
    (ha : w.arrays.get? aid = some a)
    (hwf : wfArr a = true)
    (hnd : (a.attributes.map Prod.fst).Nodup)
    (he : w.elems.get? eid = some e)
    (hrefs : e.referencedLists = [aid])
    (hsat : elemSatisfies a.attributes e.fields = true)
    (hi : a.assignedObjects.get? i = some (some eid))
    (hfirst : ∀ k, k < i → a.assignedObjects.get? k ≠ some (some eid))
    (hj : a.assignedObjects.get? j = some (some eid))
    (hij : j ≠ i) :
    (onPropertyChangedW w eid).2 = none ∧
    (∀ p ∈ a.attributes, ∃ v s, alookup p.1 e.fields = some v ∧
      specSnapshotData p.2 v = some s ∧
      bufDataAt (onPropertyChangedW w eid).1 aid p.1 i = some s) ∧
    (∀ n, bufDataAt (onPropertyChangedW w eid).1 aid n j = bufDataAt w aid n j) := by
  have hisize : i < a.size := by
    have := (List.get?_eq_some.1 hi).1
    rw [(wfArr_iff.1 hwf).1] at this
    exact this
  have hmem : (some eid) ∈ a.assignedObjects := List.get?_mem hi
  have hio : a.assignedObjects.indexOf (some eid) = i := indexOf_eq_of_first hi hfirst
  have hobj : objectChangedW w aid eid = arrSetItem w aid (i : Int) (some eid) := by
    simp only [objectChangedW, ha, if_pos hmem, hio]
  obtain ⟨hsnd, hcont, hother, _, _, _⟩ := arrSetItem_chr ha hwf hnd hisize he hsat
  have hnp : onPropertyChangedW w eid
      = arrSetItem w aid (i : Int) (some eid) := by
    simp only [onPropertyChangedW, he, hrefs, notifyFold, hobj]
    cases hr : arrSetItem w aid (i : Int) (some eid) with
    | mk w' err =>
      rw [hr] at hsnd
      simp only at hsnd
      subst hsnd
      rfl
  rw [hnp]
  exact ⟨hsnd, hcont, fun n => hother n j (Or.inr hij)⟩

/-- Witness for the amended C1 at the counterexample's input: element 0 at
slots 0 and 1, field mutated to 7, then notified. -/
theorem notify_refreshes_first_slot_only_witness :
    ((runTrace [.newElem [("v", Value.int 5)], .newArray [("v", "int")] 2,
        .setSlot 0 0 (some 0), .setSlot 0 1 (some 0),
        .setField 0 "v" (Value.int 7)]).elems.get? 0
      = some ⟨[0], [("v", Value.int 7)]⟩) ∧
    ((onPropertyChangedW (runTrace [.newElem [("v", Value.int 5)],
        .newArray [("v", "int")] 2, .setSlot 0 0 (some 0), .setSlot 0 1 (some 0),
        .setField 0 "v" (Value.int 7)]) 0).2 = none ∧
     (∀ n, bufDataAt (onPropertyChangedW (runTrace [.newElem [("v", Value.int 5)],
        .newArray [("v", "int")] 2, .setSlot 0 0 (some 0), .setSlot 0 1 (some 0),
        .setField 0 "v" (Value.int 7)]) 0).1 0 n 1
       = bufDataAt (runTrace [.newElem [("v", Value.int 5)],
        .newArray [("v", "int")] 2, .setSlot 0 0 (some 0), .setSlot 0 1 (some 0),
        .setField 0 "v" (Value.int 7)]) 0 n 1)) := by
  refine ⟨by decide, ?_⟩
  have h := @notify_refreshes_first_slot_only
    (runTrace [.newElem [("v", Value.int 5)], .newArray [("v", "int")] 2,
      .setSlot 0 0 (some 0), .setSlot 0 1 (some 0), .setField 0 "v" (Value.int 7)])
    0 0
    ⟨[("v", "int")], 2, [], [some 0, some 0],
      [("v", [⟨.ptaInt, [.int 5]⟩, ⟨.ptaInt, [.int 5]⟩])]⟩
    ⟨[0], [("v", Value.int 7)]⟩ 0 1
    (by decide) (by decide) (by decide) (by decide) (by decide) (by decide) (by decide)
    (fun k hk => absurd hk (Nat.not_lt_zero k)) (by decide) (by decide)
  exact ⟨h.1, h.2.2⟩

/-! ### Claim C3: the back-reference invariant -/

/-- C3 counterexample: element 0 assigned at slots 0 and 1, then overwritten at
slot 0 only by element 1.  Line 181 removes the array from element 0's
back-reference set even though element 0 is still held at slot 1, so the
claimed iff fails: the array holds element 0 yet is absent from its
`referencedLists`. -/
theorem backref_invariant_counterexample :
    ((runTrace [.newElem [("v", Value.int 1)], .newElem [("v", Value.int 2)],
        .newArray [("v", "int")] 2, .setSlot 0 0 (some 0), .setSlot 0 1 (some 0),
        .setSlot 0 0 (some 1)]).arrays.get? 0).map ArrState.assignedObjects
      = some [some 1, some 0] ∧
    ((runTrace [.newElem [("v", Value.int 1)], .newElem [("v", Value.int 2)],
        .newArray [("v", "int")] 2, .setSlot 0 0 (some 0), .setSlot 0 1 (some 0),
        .setSlot 0 0 (some 1)]).elems.get? 0).map ElemState.referencedLists
      = some [] := by
  exact ⟨by decide, by decide⟩

theorem bufFrame_assigned {aid : ArrId} {w w' : World} (h : BufFrame aid w w') :
    ∀ k, (w'.arrays.get? k).map ArrState.assignedObjects
      = (w.arrays.get? k).map ArrState.assignedObjects := by
  intro k
  by_cases hk : k = aid
  · subst hk
    have hs := h.2.2.1
    have h1 : ∀ (o : Option ArrState), o.map ArrState.assignedObjects
        = (o.map skelOf).map (fun t => t.2.2.1) := by
      intro o
      cases o <;> rfl
    rw [h1, h1, hs]
  · rw [h.2.1 k hk]

theorem refsInv_transport {w w' : World} (helems : w'.elems = w.elems)
    (hassigned : ∀ k, (w'.arrays.get? k).map ArrState.assignedObjects
      = (w.arrays.get? k).map ArrState.assignedObjects)
    (hInv : RefsInv w) : RefsInv w' := by
  constructor
  · rw [helems]
    exact hInv.1
  · intro eid e aid hget hmem
    rw [helems] at hget
    obtain ⟨a, ha, j, hj⟩ := hInv.2 eid e aid hget hmem
    have h := hassigned aid
    rw [ha] at h
    obtain ⟨a', ha', hs'⟩ := Option.map_eq_some'.1 h
    exact ⟨a', ha', j, by rw [hs']; exact hj⟩

theorem refsInv_book_core {w w₁ : World} {aid : ArrId} {i : Nat} {vid : ElemId}
    {a : ArrState} {oldObject : Option ElemId}
    (hInv : RefsInv w)
    (ha : w.arrays.get? aid = some a)
    (hold : a.assignedObjects.get? i = some oldObject)
    (hcase : (w₁ = w ∧ (oldObject = none ∨ oldObject = some vid)) ∨
      (∃ old, oldObject = some old ∧ old ≠ vid ∧ w₁ = removeListRefW w old aid)) :
    RefsInv (setAssignedW (addListRefW w₁ vid aid) aid i (some vid)) := by
  have hil : i < a.assignedObjects.length := (List.get?_eq_some.1 hold).1
  have harr₁ : w₁.arrays = w.arrays := by
    rcases hcase with ⟨hw, _⟩ | ⟨old, _, _, hw⟩
    · rw [hw]
    · rw [hw]; exact arrays_removeListRef w old aid
  have harr₂ : (addListRefW w₁ vid aid).arrays = w.arrays := by
    rw [arrays_addListRef, harr₁]
  have ha₂ : (addListRefW w₁ vid aid).arrays.get? aid = some a := by
    rw [harr₂]; exact ha
  have hw₃ : setAssignedW (addListRefW w₁ vid aid) aid i (some vid)
      = setArrState (addListRefW w₁ vid aid) aid
        { a with assignedObjects := a.assignedObjects.set i (some vid) } :=
    setAssigned_eq ha₂
  have hlt : aid < (addListRefW w₁ vid aid).arrays.length := (List.get?_eq_some.1 ha₂).1
  have ha₃ : (setAssignedW (addListRefW w₁ vid aid) aid i (some vid)).arrays.get? aid
      = some { a with assignedObjects := a.assignedObjects.set i (some vid) } := by
    rw [hw₃]
    unfold setArrState
    exact get?_set_self _ hlt
  constructor
  · -- every referencedLists stays duplicate-free
    intro e₃ hmem₃
    have hmem₃' : e₃ ∈ (addListRefW w₁ vid aid).elems := by
      rw [hw₃] at hmem₃
      exact hmem₃
    obtain ⟨k, hk⟩ := List.mem_iff_get?.1 hmem₃'
    obtain ⟨e₁, he₁, _, _, hnd₂, _⟩ := refs_addListRef hk
    rcases hcase with ⟨hw, _⟩ | ⟨old, _, _, hw⟩
    · rw [hw] at he₁
      exact hnd₂ (hInv.1 e₁ (List.get?_mem he₁))
    · rw [hw] at he₁
      obtain ⟨e₀, he₀, _, _, hnd₁, _, _⟩ := refs_removeListRef he₁
      exact hnd₂ (hnd₁ (hInv.1 e₀ (List.get?_mem he₀)))
  · intro eid' e₃ aid' hget hmem
    have hget₂ : (addListRefW w₁ vid aid).elems.get? eid' = some e₃ := by
      rw [hw₃] at hget
      exact hget
    obtain ⟨e₁, he₁, _, hsub₂, _, hne₂⟩ := refs_addListRef hget₂
    by_cases haid : aid' = aid
    · subst haid
      by_cases hev : eid' = vid
      · subst hev
        refine ⟨_, ha₃, i, ?_⟩
        exact get?_set_self _ hil
      · have he₃e₁ : e₃ = e₁ := hne₂ hev
        have hmem₁ : aid' ∈ e₁.referencedLists := by rw [← he₃e₁]; exact hmem
        rcases hcase with ⟨hw, hoo⟩ | ⟨old, hoeq, hone, hw⟩
        · rw [hw] at he₁
          obtain ⟨arr, harr, j, hj⟩ := hInv.2 eid' e₁ aid' he₁ hmem₁
          rw [ha] at harr
          injection harr with harra
          subst harra
          refine ⟨_, ha₃, j, ?_⟩
          by_cases hji : j = i
          · exfalso
            subst hji
            rw [hold] at hj
            injection hj with hj
            rcases hoo with h0 | h0 <;> rw [h0] at hj
            · exact Option.noConfusion hj
            · exact hev (Option.some.inj hj).symm
          · rw [List.get?_set_ne _ _ (fun hh => hji hh.symm)]
            exact hj
        · rw [hw] at he₁
          obtain ⟨e₀, he₀, _, hsub₁, _, hne₁, hrem⟩ := refs_removeListRef he₁
          by_cases heo : eid' = old
          · exfalso
            subst heo
            have h₀ : aid' ∈ e₀.referencedLists := hsub₁ aid' hmem₁
            exact (hrem rfl h₀ (hInv.1 e₀ (List.get?_mem he₀))) hmem₁
          · have he₁e₀ : e₁ = e₀ := hne₁ heo
            have hmem₀ : aid' ∈ e₀.referencedLists := by rw [← he₁e₀]; exact hmem₁
            obtain ⟨arr, harr, j, hj⟩ := hInv.2 eid' e₀ aid' he₀ hmem₀
            rw [ha] at harr
            injection harr with harra
            subst harra
            refine ⟨_, ha₃, j, ?_⟩
            by_cases hji : j = i
            · exfalso
              subst hji
              rw [hold] at hj
              injection hj with hj
              rw [hoeq] at hj
              exact heo (Option.some.inj hj).symm
            · rw [List.get?_set_ne _ _ (fun hh => hji hh.symm)]
              exact hj
    · have hmem₁ : aid' ∈ e₁.referencedLists := by
        rcases hsub₂ aid' hmem with h | h
        · exact h
        · exact absurd h haid
      have hex : ∃ e₀, w.elems.get? eid' = some e₀ ∧ aid' ∈ e₀.referencedLists := by
        rcases hcase with ⟨hw, _⟩ | ⟨old, _, _, hw⟩
        · rw [hw] at he₁
          exact ⟨e₁, he₁, hmem₁⟩
        · rw [hw] at he₁
          obtain ⟨e₀, he₀, _, hsub₁, _, _, _⟩ := refs_removeListRef he₁
          exact ⟨e₀, he₀, hsub₁ aid' hmem₁⟩
      obtain ⟨e₀, he₀, hm₀⟩ := hex
      obtain ⟨arr, harr, j, hj⟩ := hInv.2 eid' e₀ aid' he₀ hm₀
      refine ⟨arr, ?_, j, hj⟩
      rw [hw₃]
      unfold setArrState
      rw [List.get?_set_ne _ _ (fun hh => haid hh.symm), harr₂]
      exact harr

theorem refsInv_arrSetItem (w : World) (aid : ArrId) (index : Int) (value : Option ElemId)
    (hInv : RefsInv w) : RefsInv (arrSetItem w aid index value).1 := by
  rcases Option.eq_none_or_eq_some (w.arrays.get? aid) with ha | ⟨a, ha⟩
  · rw [arrSetItem_eq_noarr ha]; exact hInv
  by_cases hidx : index < 0 ∨ (a.size : Int) ≤ index
  · rw [arrSetItem_eq_oob ha hidx]; exact hInv
  rcases Option.eq_none_or_eq_some (a.assignedObjects.get? index.toNat) with hold | ⟨old, hold⟩
  · rw [arrSetItem_eq_noslot ha hidx hold]; exact hInv
  cases value with
  | none => rw [arrSetItem_eq_none_val ha hidx hold]; exact hInv
  | some vid =>
    have hbook : ∀ (w₁ : World),
        ((w₁ = w ∧ (old = none ∨ old = some vid)) ∨
          (∃ o, old = some o ∧ o ≠ vid ∧ w₁ = removeListRefW w o aid)) →
        RefsInv (writeAttrs (setAssignedW (addListRefW w₁ vid aid) aid index.toNat
          (some vid)) aid index.toNat vid a.attributes).1 := by
      intro w₁ hcase
      have hW₃ := refsInv_book_core hInv ha hold hcase
      have hfr := writeAttrs_frame (setAssignedW (addListRefW w₁ vid aid) aid index.toNat
        (some vid)) aid index.toNat vid a.attributes
      exact refsInv_transport hfr.1 (bufFrame_assigned hfr) hW₃
    cases old with
    | none =>
      rw [arrSetItem_eq_some_nold ha hidx hold]
      exact hbook w (Or.inl ⟨rfl, Or.inl rfl⟩)
    | some o =>
      by_cases hov : o = vid
      · subst hov
        rw [arrSetItem_eq_some_same ha hidx hold]
        exact hbook w (Or.inl ⟨rfl, Or.inr rfl⟩)
      · rw [arrSetItem_eq_some_diff ha hidx hold hov]
        exact hbook (removeListRefW w o aid) (Or.inr ⟨o, rfl, hov, rfl⟩)

theorem refsInv_objectChanged (w : World) (aid : ArrId) (eid : ElemId)
    (hInv : RefsInv w) : RefsInv (objectChangedW w aid eid).1 := by
  rcases Option.eq_none_or_eq_some (w.arrays.get? aid) with ha | ⟨a, ha⟩
  · simp only [objectChangedW, ha]; exact hInv
  simp only [objectChangedW, ha]
  by_cases hm : (some eid) ∈ a.assignedObjects
  · rw [if_pos hm]
    exact refsInv_arrSetItem w aid _ (some eid) hInv
  · rw [if_neg hm]; exact hInv

theorem refsInv_notifyFold (w : World) (eid : ElemId) (refs : List ArrId)
    (hInv : RefsInv w) : RefsInv (notifyFold w eid refs).1 := by
  induction refs generalizing w with
  | nil => exact hInv
  | cons aid rest ih =>
    have hstep := refsInv_objectChanged w aid eid hInv
    cases ho : objectChangedW w aid eid with
    | mk w' err =>
      rw [ho] at hstep
      cases err with
      | none =>
        have h : notifyFold w eid (aid :: rest) = notifyFold w' eid rest := by
          simp only [notifyFold, ho]
        rw [h]
        exact ih w' hstep
      | some er =>
        have h : notifyFold w eid (aid :: rest) = (w', some er) := by
          simp only [notifyFold, ho]
        rw [h]
        exact hstep

theorem refsInv_step (w : World) (op : Op) (hInv : RefsInv w) :
    RefsInv (step w op).1 := by
  cases op with
  | newElem fields =>
    constructor
    · intro e he
      rcases List.mem_append.1 he with h1 | h2
      · exact hInv.1 e h1
      · have : e = ⟨[], fields⟩ := by simpa using h2
        rw [this]
        exact List.nodup_nil
    · intro eid e aid hget hmem
      simp only [step] at hget ⊢
      by_cases hlt : eid < w.elems.length
      · rw [List.get?_append hlt] at hget
        exact hInv.2 eid e aid hget hmem
      · rw [List.get?_append_right (Nat.le_of_not_lt hlt)] at hget
        rcases Nat.eq_or_lt_of_le (Nat.le_of_not_lt hlt) with heq | hgt
        · rw [← heq, Nat.sub_self] at hget
          have : e = ⟨[], fields⟩ := by
            simpa [List.get?] using hget.symm
          rw [this] at hmem
          simp at hmem
        · exfalso
          have h1 : 1 ≤ eid - w.elems.length := by omega
          have : ([(⟨[], fields⟩ : ElemState)].get? (eid - w.elems.length)) = none :=
            List.get?_eq_none.2 (by simpa using h1)
          rw [this] at hget
          exact Option.noConfusion hget
  | setField eid name v =>
    rcases Option.eq_none_or_eq_some (w.elems.get? eid) with he | ⟨e, he⟩
    · simp only [step, he]; exact hInv
    simp only [step, he]
    have hlt : eid < w.elems.length := (List.get?_eq_some.1 he).1
    constructor
    · intro e₃ hmem₃
      rcases List.mem_or_eq_of_mem_set hmem₃ with h1 | h2
      · exact hInv.1 e₃ h1
      · rw [h2]
        exact hInv.1 e (List.get?_mem he)
    · intro eid' e₃ aid hget hmem
      by_cases hee : eid' = eid
      · subst hee
        have : (setElemState w eid' { e with fields := aset name v e.fields }).elems.get? eid'
            = some { e with fields := aset name v e.fields } := get?_set_self _ hlt
        rw [this] at hget
        injection hget with hget
        rw [← hget] at hmem
        exact hInv.2 eid' e aid he hmem
      · have : (setElemState w eid { e with fields := aset name v e.fields }).elems.get? eid'
            = w.elems.get? eid' := List.get?_set_ne _ _ (fun hh => hee hh.symm)
        rw [this] at hget
        exact hInv.2 eid' e₃ aid hget hmem
  | newArray attrs size =>
    constructor
    · exact hInv.1
    · intro eid e aid hget hmem
      obtain ⟨arr, harr, j, hj⟩ := hInv.2 eid e aid hget hmem
      have hlt : aid < w.arrays.length := (List.get?_eq_some.1 harr).1
      refine ⟨arr, ?_, j, hj⟩
      show (w.arrays ++ [mkStructArray attrs size]).get? aid = some arr
      rw [List.get?_append hlt]
      exact harr
  | setSlot aid index value => exact refsInv_arrSetItem w aid index value hInv
  | notify eid =>
    rcases Option.eq_none_or_eq_some (w.elems.get? eid) with he | ⟨e, he⟩
    · simp only [step, onPropertyChangedW, he]; exact hInv
    simp only [step, onPropertyChangedW, he]
    exact refsInv_notifyFold w eid e.referencedLists hInv
  | bind aid parent u =>
    rcases Option.eq_none_or_eq_some (w.arrays.get? aid) with ha | ⟨a, ha⟩
    · simp only [step, bindToW, ha]; exact hInv
    simp only [step, bindToW, ha]
    have hlt : aid < w.arrays.length := (List.get?_eq_some.1 ha).1
    have htr : ∀ (r : Option (List (String × Buffer))),
        RefsInv ((match r with
          | none => (setArrState w aid { a with parents := aset parent u a.parents },
              some PyErr.keyError)
          | some _ => (setArrState w aid { a with parents := aset parent u a.parents },
              none) : World × Option PyErr)).1 := by
      intro r
      have hgoal : RefsInv (setArrState w aid { a with parents := aset parent u a.parents }) := by
        refine @refsInv_transport w
          (setArrState w aid { a with parents := aset parent u a.parents }) rfl ?_ hInv
        intro k
        unfold setArrState
        by_cases hk : k = aid
        · subst hk
          rw [get?_set_self _ hlt, ha]
          rfl
        · rw [List.get?_set_ne _ _ (fun hh => hk hh.symm)]
      cases r <;> exact hgoal
    exact htr _

theorem refsInv_runTrace (ops : List Op) : RefsInv (runTrace ops) := by
  have haux : ∀ (l : List Op) (w : World), RefsInv w →
      RefsInv (l.foldl (fun w op => (step w op).1) w) := by
    intro l
    induction l with
    | nil => exact fun w h => h
    | cons op rest ih =>
      intro w hw
      exact ih ((step w op).1) (refsInv_step w op hw)
  exact haux ops ⟨[], []⟩ ⟨fun e he => by simp at he, fun eid e aid hget _ => by
    simp [List.get?] at hget⟩

/-- C3 amended: over every state reachable by any sequence of element/array
constructions, field writes, slot assignments, notifications and bindings, the
back-reference relation holds in one direction only: whenever array `A` is in
element `E`'s `referencedLists`, `A` currently holds `E` in at least one slot.
The converse direction of the claimed iff is false (see the counterexample):
overwriting an element held at two slots at only one of them removes the
back-reference while the element is still held at the other slot. -/
theorem backref_implies_held (ops : List Op) (eid : ElemId) (e : ElemState) (aid : ArrId)
    (hget : (runTrace ops).elems.get? eid = some e)
    (hmem : aid ∈ e.referencedLists) :
    ∃ a, (runTrace ops).arrays.get? aid = some a ∧
      ∃ j, a.assignedObjects.get? j = some (some eid) :=
  (refsInv_runTrace ops).2 eid e aid hget hmem

/-- Witness for the amended C3: after assigning element 0 into slot 0 of array
0, array 0 is in its back-reference list, and the theorem yields the slot
holding it. -/
theorem backref_implies_held_witness :
    ((runTrace [.newElem [("v", Value.int 1)], .newArray [("v", "int")] 1,
        .setSlot 0 0 (some 0)]).elems.get? 0
      = some ⟨[0], [("v", Value.int 1)]⟩ ∧
     (0 : ArrId) ∈ (⟨[0], [("v", Value.int 1)]⟩ : ElemState).referencedLists) ∧
    (∃ a, (runTrace [.newElem [("v", Value.int 1)], .newArray [("v", "int")] 1,
        .setSlot 0 0 (some 0)]).arrays.get? 0 = some a ∧
      ∃ j, a.assignedObjects.get? j = some (some 0)) := by
  refine ⟨⟨by decide, by decide⟩, ?_⟩
  exact backref_implies_held [.newElem [("v", Value.int 1)], .newArray [("v", "int")] 1,
    .setSlot 0 0 (some 0)] 0 ⟨[0], [("v", Value.int 1)]⟩ 0 (by decide) (by decide)
